import Mathlib

/-!
# A shallow embedding of nanojson3 (src/nanojson3.h)

This file models the core of the nanojson3 JSON library: the `json` value
type (a tagged union over eight variants), the recursive-descent reader
(`json_reader`), the writer (`json_writer`), the insertion-ordered
`linear_map` container backing objects, the accessor API and the
`node_reference` lazy-write cursor.  Each definition is marked with the
source lines of `src/nanojson3.h` it embeds.

Modelling conventions:
* characters are byte values (`Nat`), as produced by
  `char_traits::to_int_type` (an unsigned char value, 0..255); end of input
  is the empty list rather than the EOF sentinel;
* `js_integer` (`long long int`) is `Int`, with the 64-bit range enforced
  where the source relies on `std::from_chars` or `std::to_chars` range
  behaviour;
* `js_floating` (`long double`) is modelled as the x87 80-bit extended
  format (64-bit significand, exponent range down to 2^-16445, largest
  finite value (2^64-1)*2^16320), the format `long double` denotes on the
  mainstream x86 toolchains and the one the specification describes as
  "an extended-precision binary floating value".  Finite values are kept
  as exact dyadic numbers `m * 2^e` in canonical form (`m` odd or
  `m = e = 0`), which represents every finite extended value exactly;
* exceptions are an explicit `Except` error value: `bad_format` from the
  reader, `bad_value` from the writer, `bad_access` from accessors and
  `node_reference` (the message/position payloads carried by the C++
  exceptions are not modelled; no claim depends on them);
* the reader runs on fuel (one unit per production step); `json.parse`
  supplies `length + 1` fuel, which the round-trip development shows is
  never exhausted on inputs the reader accepts.
-/

set_option maxRecDepth 1000000

namespace Nanojson3

/-- The three nanojson exception kinds (nanojson3.h lines 264-290). -/
inductive NanoErr where
  | bad_format
  | bad_value
  | bad_access
deriving DecidableEq, Repr

/-! ## The x87 extended floating model for `js_floating` (`long double`)

A finite value is `m * 2^e` with `m : Int` odd (or `m = 0` and `e = 0`),
covering every finite 80-bit extended value exactly.  Infinities carry a
sign; NaN is a single value (the code never distinguishes NaN payloads). -/

/-- Value of `js_floating` (`long double`): finite dyadic `m * 2^e` in
canonical form, signed infinity, or NaN. -/
inductive JFloat where
  | finite (m : Int) (e : Int)
  | inf (negative : Bool)
  | nan
deriving DecidableEq, Repr

/-- `b ^ e` by binary squaring, fueled on `e` (kernel reduction of the
standard power is linear in the exponent and overflows the stack for the
large exponents of the extended float range; this one is logarithmic). -/
def npow_fuel : Nat → Nat → Nat → Nat
  | 0, _, _ => 1
  | f + 1, b, e =>
    if e = 0 then 1
    else
      let h := npow_fuel f b (e / 2)
      if e % 2 = 0 then h * h else h * h * b

def npow (b e : Nat) : Nat := npow_fuel e b e

/-- Number of binary digits of `n` (0 for 0); fueled so that it reduces in
the kernel.  `bitlen_fuel n n` is always enough fuel. -/
def bitlen_fuel : Nat → Nat → Nat
  | 0, _ => 0
  | f + 1, n => if n = 0 then 0 else bitlen_fuel f (n / 2) + 1

def bitlen (n : Nat) : Nat := bitlen_fuel n n

/-- Strip factors of two from `m`, moving them into the exponent; fuel as in
`bitlen`. -/
def oddify_fuel : Nat → Nat → Int → Nat × Int
  | 0, m, e => (m, e)
  | f + 1, m, e => if m % 2 = 0 ∧ m ≠ 0 then oddify_fuel f (m / 2) (e + 1) else (m, e)

/-- The canonical finite value `sign * m * 2^e` (`m : Nat`). -/
def JFloat.mkFinite (negative : Bool) (m : Nat) (e : Int) : JFloat :=
  if m = 0 then .finite 0 0
  else
    let (m2, e2) := oddify_fuel m m e
    .finite (if negative then -(m2 : Int) else (m2 : Int)) e2

/-- Round `n / d` (`d > 0`) to the nearest integer, ties to even. -/
def rhe_div (n d : Nat) : Nat :=
  let q := n / d
  let r := n % d
  if 2 * r > d then q + 1
  else if 2 * r < d then q
  else if q % 2 = 0 then q else q + 1

/-- Outcome of the decimal-to-`long double` conversion performed by
`std::from_chars` on the reader's number buffer: a correctly rounded finite
value, or out-of-range high (overflow) or low (result rounds to zero). -/
inductive LdConv where
  | ok (v : JFloat)
  | overflow
  | underflow
deriving Repr

/-- Largest finite extended value, `(2^64 - 1) * 2^16320`, as a dyadic pair
comparison bound: `v = n * 2^lsb > maxFinite`? -/
def gt_max_finite (n : Nat) (lsb : Int) : Bool :=
  -- compare n * 2^lsb with (2^64 - 1) * 2^16320 by clearing the exponents
  if lsb ≥ 16320 then decide (n * npow 2 (lsb - 16320).toNat > 2 ^ 64 - 1)
  else decide (n > (2 ^ 64 - 1) * npow 2 (16320 - lsb).toNat)

/-- Correctly rounded (nearest, ties to even) conversion of the exact value
`m * 10^dec` (`m ≠ 0`) into the extended format.  `blm` must be `bitlen m`.
The bit position to round at is `lsb = max (e2 - 63) (-16445)` where
`2^e2 ≤ m * 10^dec < 2^(e2+1)`; subnormals round at the fixed position
`2^-16445`.  All arithmetic is integer arithmetic on `m`, powers of 10 and
powers of 2. -/
def round_extended (negative : Bool) (m : Nat) (dec : Int) : LdConv :=
  -- exact value is m * 10^dec = (m * 5^dec) * 2^dec for dec >= 0,
  -- and m / (5^j * 2^j) for dec = -j < 0.
  if dec ≥ 0 then
    let n0 : Nat := m * npow 5 dec.toNat       -- value = n0 * 2^dec
    let e2 : Int := (bitlen n0 : Int) - 1 + dec
    let lsb : Int := max (e2 - 63) (-16445)
    -- n = round(n0 * 2^(dec - lsb)), with dec - lsb of either sign
    let n : Nat :=
      if dec ≥ lsb then n0 * npow 2 (dec - lsb).toNat
      else rhe_div n0 (npow 2 (lsb - dec).toNat)
    if n = 0 then .underflow
    else if gt_max_finite n lsb then .overflow
    else .ok (JFloat.mkFinite negative n lsb)
  else
    let j : Nat := (-dec).toNat
    let den : Nat := npow 10 j                  -- value = m / den
    -- e2 = floor(log2 (m / den)): estimate from bit lengths, then adjust
    let est : Int := (bitlen m : Int) - (bitlen den : Int)
    let e2 : Int :=
      if npow 2 (est + 16446).toNat * den ≤ m * npow 2 16446 then est
      else est - 1
    let lsb : Int := max (e2 - 63) (-16445)
    -- n = round(m / (den * 2^lsb)) with lsb of either sign
    let n : Nat :=
      if lsb ≥ 0 then rhe_div m (den * npow 2 lsb.toNat)
      else rhe_div (m * npow 2 (-lsb).toNat) den
    if n = 0 then .underflow
    else if gt_max_finite n lsb then .overflow
    else .ok (JFloat.mkFinite negative n lsb)

/-- Number of decimal digits of `n` (0 for 0); fueled like `bitlen`. -/
def declen_fuel : Nat → Nat → Nat
  | 0, _ => 0
  | f + 1, n => if n = 0 then 0 else declen_fuel f (n / 10) + 1

def declen (n : Nat) : Nat := declen_fuel n n

/-- `std::from_chars` decimal-to-`long double` semantics on the value
`sign * m * 10^dec`: zero converts to zero; magnitudes guaranteed outside
the extended range short-circuit before any large power is computed (the
bounds are sound: the value is below `10^(D+dec)` and at least
`10^(D-1+dec)` where `D` is the decimal digit count of `m`; below
`10^-4970` it is under half the smallest subnormal `2^-16445` and rounds
to zero, and at `10^4933` or above it exceeds the largest finite extended
value `(2^64-1)*2^16320 < 2^16384 < 10^4933`); otherwise the exact value
is rounded. -/
def from_chars_ld_value (negative : Bool) (m : Nat) (dec : Int) : LdConv :=
  if m = 0 then .ok (.finite 0 0)
  else
    let d : Int := (declen m : Int)
    if d - 1 + dec ≥ 4933 then .overflow
    else if d + dec ≤ -4970 then .underflow
    else round_extended negative m dec

/-! ## The `json` value type (nanojson3.h lines 381-458)

`js_variant = std::variant<js_undefined, js_null, js_boolean, js_integer,
js_floating, js_string, js_array, js_object>`.  Strings are byte lists;
an object is the `linear_map` sequence of key-value pairs (its backing
vector, in insertion order). -/

/-- A `js_string`: the byte sequence of a `std::string`. -/
abbrev JsString := List Nat

/-- A json element: the eight-variant tagged union. -/
inductive Json where
  | undefined
  | null
  | boolean (b : Bool)
  | integer (i : Int)
  | floating (f : JFloat)
  | string (s : JsString)
  | array (xs : List Json)
  | object (kvs : List (JsString × Json))

/-! ## `containers::linear_map` (nanojson3.h lines 65-261)

The object container is a plain vector of key-value pairs searched
linearly; modelled as the list of pairs.  `operate_find` returns the first
position whose key compares equal (line 204-210). -/

/-- `operate_find` (lines 204-210): first mapped value whose key matches. -/
def lm_find (m : List (JsString × Json)) (k : JsString) : Option Json :=
  match m with
  | [] => none
  | (k0, v0) :: rest => if k0 = k then some v0 else lm_find rest k

/-- Key membership, i.e. `find(key) != end()`. -/
def lm_contains (m : List (JsString × Json)) (k : JsString) : Bool :=
  match m with
  | [] => false
  | (k0, _) :: rest => if k0 = k then true else lm_contains rest k

/-- `operate_insert` / `try_emplace` without assignment (lines 214-227,
236-249 with the default `on_already_exists`): an existing key leaves the
map unchanged, a new pair is appended at the end. -/
def lm_insert (m : List (JsString × Json)) (k : JsString) (v : Json) :
    List (JsString × Json) :=
  match m with
  | [] => [(k, v)]
  | (k0, v0) :: rest =>
    if k0 = k then (k0, v0) :: rest else (k0, v0) :: lm_insert rest k v

/-- `insert_or_assign` = `operate_emplace<or_assign>` (lines 236-249): an
existing key has its mapped value replaced in place, a new pair is
appended at the end. -/
def lm_insert_or_assign (m : List (JsString × Json)) (k : JsString) (v : Json) :
    List (JsString × Json) :=
  match m with
  | [] => [(k, v)]
  | (k0, v0) :: rest =>
    if k0 = k then (k0, v) :: rest else (k0, v0) :: lm_insert_or_assign rest k v

/-- `operate_erase` (lines 251-260): removes the first pair whose key
matches, if any. -/
def lm_erase (m : List (JsString × Json)) (k : JsString) :
    List (JsString × Json) :=
  match m with
  | [] => []
  | (k0, v0) :: rest =>
    if k0 = k then rest else (k0, v0) :: lm_erase rest k

/-! ## Parse options (nanojson3.h lines 322-342)

`json_parse_option` is a bitmask; option words are `Nat` and a bit is
tested as `(opts / bit) % 2 = 1` (the bits are the powers of two below). -/

def jpo_allow_utf8_bom : Nat := 1
def jpo_allow_unescaped_forward_slash : Nat := 2
def jpo_allow_comment : Nat := 4
def jpo_allow_trailing_comma : Nat := 8
def jpo_allow_unquoted_object_key : Nat := 16
def jpo_allow_number_with_plus_sign : Nat := 32
/-- `default_option = allow_utf8_bom | allow_unescaped_forward_slash`. -/
def jpo_default : Nat := jpo_allow_utf8_bom + jpo_allow_unescaped_forward_slash

/-- `has_option` (lines 790-793): tests one option bit of the mask. -/
def has_option (opts bit : Nat) : Bool := (opts / bit) % 2 = 1

/-! ## Character classes used by the reader -/

/-- Locale-independent `is_digit` (line 855). -/
def is_digit (c : Nat) : Bool := 48 ≤ c && c ≤ 57

/-- Locale-independent `is_space` (line 1207): space, tab, CR, LF. -/
def is_space (c : Nat) : Bool := c = 32 || c = 9 || c = 13 || c = 10

/-! ## Whitespace and comments (`eat_whitespaces`, lines 1203-1237) -/

/-- The inner space-skipping loop (line 1211). -/
def skip_spaces (l : List Nat) : List Nat := l.dropWhile (fun c => is_space c)

/-- The block-comment body loop (lines 1215-1222): consume until a `*`
immediately followed by `/` (both consumed), or end of input. -/
def skip_block_comment : List Nat → List Nat
  | [] => []
  | 42 :: 47 :: r => r
  | _ :: r => skip_block_comment r

/-- The line-comment body loop (lines 1223-1230): consume through the next
newline, or to end of input. -/
def skip_line_comment : List Nat → List Nat
  | [] => []
  | 10 :: r => r
  | _ :: r => skip_line_comment r

/-- `eat_whitespaces` main loop (lines 1209-1236), fueled: skip spaces,
then, when comments are allowed and a `/` is next, consume it and a
following block or line comment (a lone `/` is consumed with no comment
body, as in the source), and repeat.  One fuel unit per outer iteration;
every iteration that recurses has consumed at least one byte, so
`length + 1` fuel is always enough. -/
def eat_ws_fuel (opts : Nat) : Nat → List Nat → List Nat
  | 0, l => l
  | f + 1, l =>
    let l1 := skip_spaces l
    if has_option opts jpo_allow_comment then
      match l1 with
      | 47 :: 42 :: r => eat_ws_fuel opts f (skip_block_comment r)
      | 47 :: 47 :: r => eat_ws_fuel opts f (skip_line_comment r)
      | 47 :: r => eat_ws_fuel opts f r
      | _ => l1
    else l1

def eat_whitespaces (opts : Nat) (l : List Nat) : List Nat :=
  eat_ws_fuel opts (l.length + 1) l

/-- `eat_utf8bom` (lines 1192-1201): a leading 0xEF starts a BOM; it is an
error unless the BOM option is set and the full 0xEF 0xBB 0xBF follows. -/
def eat_utf8bom (opts : Nat) (l : List Nat) : Except NanoErr (List Nat) :=
  match l with
  | c :: rest =>
    if c = 239 then
      if !has_option opts jpo_allow_utf8_bom then .error .bad_format
      else match rest with
        | 187 :: 191 :: r => .ok r
        | _ => .error .bad_format
    else .ok (c :: rest)
  | [] => .ok []

/-! ## `read_number` (lines 853-1000)

Digits are copied into a bounded buffer (`integer_limit` 60 for the
integer part, `fraction_limit` 64 including the fraction, `decimal_limit`
128 overall); excess integer digits are dropped while incrementing the
`int` counter `exp_offset`, excess fraction digits are simply dropped, and
leading fraction zeros of a zero integer part are dropped while
decrementing `exp_offset`.  `exp_offset` saturates at the `int` extremes
(lines 863-865, 940-944). -/

def int32_max : Int := 2147483647
def int32_min : Int := -2147483648
def int64_max : Int := 9223372036854775807
def int64_min : Int := -9223372036854775808

/-- Integer-part digit loop (lines 877-881). -/
def int_digits_loop (buf : List Nat) (expOff : Int) :
    List Nat → Except NanoErr (List Nat × Int × List Nat)
  | [] => .ok (buf, expOff, [])
  | c :: rest =>
    if is_digit c then
      if buf.length < 60 then int_digits_loop (buf ++ [c]) expOff rest
      else if expOff < int32_max then int_digits_loop buf (expOff + 1) rest
      else .error .bad_format
    else .ok (buf, expOff, c :: rest)

/-- Leading-fraction-zero loop when the integer part is zero
(lines 893-899). -/
def frac_zero_skip (expOff : Int) :
    List Nat → Except NanoErr (Int × List Nat)
  | [] => .ok (expOff, [])
  | c :: rest =>
    if c = 48 then
      if expOff > int32_min then frac_zero_skip (expOff - 1) rest
      else .error .bad_format
    else .ok (expOff, c :: rest)

/-- Fraction digit loop (lines 901-905): beyond `fraction_limit` digits
are dropped without exponent adjustment. -/
def frac_digits_loop (buf : List Nat) : List Nat → List Nat × List Nat
  | [] => (buf, [])
  | c :: rest =>
    if is_digit c then
      if buf.length < 64 then frac_digits_loop (buf ++ [c]) rest
      else frac_digits_loop buf rest
    else (buf, c :: rest)

/-- Exponent digit loop (lines 924-931): the 32-byte `exp_part` buffer;
excess digits are dropped. -/
def exp_digits_loop (ebuf : List Nat) : List Nat → List Nat × List Nat
  | [] => (ebuf, [])
  | c :: rest =>
    if is_digit c then
      if ebuf.length < 32 then exp_digits_loop (ebuf ++ [c]) rest
      else exp_digits_loop ebuf rest
    else (ebuf, c :: rest)

/-- Accumulated value of a digit string, most significant first. -/
def digits_val (ds : List Nat) : Nat := ds.foldl (fun a c => a * 10 + (c - 48)) 0

/-- `std::from_chars` for `int` on the built `exp_part` (an optional `-`
followed by digits): `none` is `result_out_of_range` (lines 934-945). -/
def from_chars_int32 (l : List Nat) : Option Int :=
  let p : Bool × List Nat :=
    match l with
    | c :: r => if c = 45 then (true, r) else (false, c :: r)
    | [] => (false, [])
  let v : Int := if p.1 then -(digits_val p.2 : Int) else (digits_val p.2 : Int)
  if int32_min ≤ v ∧ v ≤ int32_max then some v else none

/-- `std::from_chars` for `long long` on the whole buffer in the
integer-typed case (an optional `-` followed by digits); `none` is
`result_out_of_range` (lines 964-969). -/
def from_chars_i64 (l : List Nat) : Option Int :=
  let p : Bool × List Nat :=
    match l with
    | c :: r => if c = 45 then (true, r) else (false, c :: r)
    | [] => (false, [])
  let v : Int := if p.1 then -(digits_val p.2 : Int) else (digits_val p.2 : Int)
  if int64_min ≤ v ∧ v ≤ int64_max then some v else none

/-- Decimal digit characters of `n`, most significant first (empty for 0);
fueled like `bitlen`. -/
def nat_to_chars_fuel : Nat → Nat → List Nat
  | 0, _ => []
  | f + 1, n => if n = 0 then [] else nat_to_chars_fuel f (n / 10) ++ [48 + n % 10]

/-- `std::to_chars` for an unsigned value. -/
def nat_to_chars (n : Nat) : List Nat :=
  if n = 0 then [48] else nat_to_chars_fuel n n

/-- `std::to_chars` for a signed value (used for `exp_offset` at line 958
and for `js_integer` at lines 1342-1348). -/
def int_to_chars (i : Int) : List Nat :=
  if i < 0 then 45 :: nat_to_chars i.natAbs else nat_to_chars i.natAbs

/-- Digit span helper for re-parsing the number buffer. -/
def span_digits : List Nat → List Nat × List Nat
  | [] => ([], [])
  | c :: rest =>
    if is_digit c then
      let p := span_digits rest
      (c :: p.1, p.2)
    else ([], c :: rest)

/-- `std::from_chars` for `long double` on the reader's buffer, whose
shape is `[-]digits[.digits][e[-]digits]` by construction (lines 971-996):
the exact decimal value is converted with correct rounding into the
extended format. -/
def from_chars_ld (l : List Nat) : LdConv :=
  let p : Bool × List Nat :=
    match l with
    | c :: r => if c = 45 then (true, r) else (false, c :: r)
    | [] => (false, [])
  let ip := span_digits p.2
  let fp : List Nat × List Nat := match ip.2 with
    | 46 :: r => span_digits r
    | l2 => ([], l2)
  let ev : Int := match fp.2 with
    | 101 :: 45 :: r => -(digits_val (span_digits r).1 : Int)
    | 101 :: r => (digits_val (span_digits r).1 : Int)
    | _ => 0
  from_chars_ld_value p.1 (digits_val (ip.1 ++ fp.1))
    (ev - (fp.1.length : Int))

/-- Integer part of `read_number` (lines 874-882): a single leading `0`,
or a digit run through `int_digits_loop`; anything else is an error. -/
def rn_int_part (buf : List Nat) (l1 : List Nat) :
    Except NanoErr (List Nat × Int × List Nat) :=
  match l1 with
  | c :: r =>
    if c = 48 then .ok (buf ++ [48], 0, r)
    else if is_digit c then int_digits_loop buf 0 (c :: r)
    else .error .bad_format
  | [] => .error .bad_format

/-- Fraction part of `read_number` (lines 885-908): on a `.`, require a
digit; when the integer part was `0` (or `-0`), drop its leading zeros
into the exponent offset first; the result records whether the number is
still integer-typed. -/
def rn_frac_part (buf : List Nat) (expOff : Int) (l2 : List Nat) :
    Except NanoErr (List Nat × Int × List Nat × Bool) :=
  match l2 with
  | c :: r =>
    if c = 46 then
      let buf2 := buf ++ [46]
      match r with
      | c2 :: _ =>
        if is_digit c2 then
          if buf2.head? = some 48
              ∨ (buf2.head? = some 45 ∧ buf2.get? 1 = some 48) then
            match frac_zero_skip expOff r with
            | .ok (e2, r1) =>
              let fd := frac_digits_loop buf2 r1
              .ok (fd.1, e2, fd.2, false)
            | .error e => .error e
          else
            let fd := frac_digits_loop buf2 r
            .ok (fd.1, expOff, fd.2, false)
        else .error .bad_format
      | [] => .error .bad_format
    else .ok (buf, expOff, c :: r, true)
  | [] => .ok (buf, expOff, [], true)

/-- Exponent part of `read_number` (lines 910-951): on `e`/`E`, read an
optional sign and a digit run into the 32-byte `exp_part`, convert it as
`int`, and fold it into `exp_offset` with saturation; an out-of-range
exponent literal maps a leading `-` to the maximum offset and otherwise
the minimum (exactly as the source, lines 942-945). -/
def rn_exp_part (expOff : Int) (intType : Bool) (l3 : List Nat) :
    Except NanoErr (Int × List Nat × Bool) :=
  match l3 with
  | c :: r =>
    if c = 101 ∨ c = 69 then
      let s2 : List Nat × List Nat :=
        match r with
        | 45 :: r2 => ([45], r2)
        | 43 :: r2 => ([], r2)
        | r1 => ([], r1)
      match s2.2 with
      | c2 :: _ =>
        if is_digit c2 then
          let ed := exp_digits_loop s2.1 s2.2
          match from_chars_int32 ed.1 with
          | some ev =>
            -- saturating addition (line 940)
            let expOff2 :=
              if expOff > 0 ∧ ev > int32_max - expOff then int32_max
              else if expOff < 0 ∧ ev < int32_min - expOff then int32_min
              else expOff + ev
            .ok (expOff2, ed.2, false)
          | none =>
            .ok (if ed.1.head? = some 45 then int32_max else int32_min,
                 ed.2, false)
        else .error .bad_format
      | [] => .error .bad_format
    else .ok (expOff, c :: r, intType)
  | [] => .ok (expOff, [], intType)

/-- Appending the accumulated exponent to the buffer (lines 953-961). -/
def rn_append_exp (buf : List Nat) (expOff : Int) (intType : Bool) :
    Except NanoErr (List Nat × Bool) :=
  if expOff ≠ 0 then
    let ec := int_to_chars expOff
    if buf.length + 1 + ec.length ≤ 128 then .ok (buf ++ [101] ++ ec, false)
    else .error .bad_format
  else .ok (buf, intType)

/-- The final conversion of `read_number` (lines 963-999): the integer
attempt, the floating attempt, and the out-of-range mapping in which the
sign of `exp_offset` selects infinity (buffer-signed) versus positive
zero (`+0.0`, or `-(-0.0)` which is also positive zero). -/
def rn_finish (buf : List Nat) (expOff : Int) (intType : Bool)
    (l4 : List Nat) : Except NanoErr (Json × List Nat) :=
  match (if intType then from_chars_i64 buf else none) with
  | some v => .ok (Json.integer v, l4)
  | none =>
    match from_chars_ld buf with
    | .ok v => .ok (Json.floating v, l4)
    | _ =>
      if expOff ≥ 0 then
        .ok (Json.floating (.inf (buf.head? = some 45)), l4)
      else
        .ok (Json.floating (.finite 0 0), l4)

/-- `read_number` (lines 853-1000): sign handling (an eaten `-` goes into
the buffer; a leading `+` is eaten and dropped when the option allows
it), then the staged pipeline above. -/
def read_number (opts : Nat) (l : List Nat) :
    Except NanoErr (Json × List Nat) :=
  let s1 : List Nat × List Nat :=
    match l with
    | c :: r => if c = 45 then ([45], r) else ([], c :: r)
    | [] => ([], [])
  let l1 := if has_option opts jpo_allow_number_with_plus_sign then
              match s1.2 with
              | c :: r => if c = 43 then r else c :: r
              | [] => []
            else s1.2
  match rn_int_part s1.1 l1 with
  | .error e => .error e
  | .ok (buf, e1, l2) =>
    match rn_frac_part buf e1 l2 with
    | .error e => .error e
    | .ok (buf2, e2, l3, it2) =>
      match rn_exp_part e2 it2 l3 with
      | .error e => .error e
      | .ok (e3, l4, it3) =>
        match rn_append_exp buf2 e3 it3 with
        | .error e => .error e
        | .ok (buf3, it4) => rn_finish buf3 e3 it4 l4

/-! ## `read_string` (lines 1002-1096) -/

/-- The `hex` helper (lines 1027-1033): value of a hexadecimal digit. -/
def hex_val (c : Nat) : Option Nat :=
  if 48 ≤ c ∧ c ≤ 57 then some (c - 48)
  else if 65 ≤ c ∧ c ≤ 70 then some (c - 65 + 10)
  else if 97 ≤ c ∧ c ≤ 102 then some (c - 97 + 10)
  else none

/-- The string-body loop (lines 1012-1093), on fuel: one unit per
iteration, and every iteration consumes at least one input byte, so the
callers' `length + 1` can never run out.  `acc` is the string built so
far; shifts and masks of the source are written with `/` and `%`
(`x >> k & m` is `x / 2^k % (m+1)`). -/
def str_loop (opts : Nat) : Nat → JsString → List Nat →
    Except NanoErr (JsString × List Nat)
  | 0, _, _ => .error .bad_format
  | fuel + 1, acc, l =>
    match l with
    | [] => .error .bad_format          -- unexpected eof (line 1088)
    | c :: rest =>
      if c = 92 then
        -- escape sequence (lines 1014-1085)
        match rest with
        | 117 :: h1 :: h2 :: h3 :: h4 :: rest1 =>
          -- `\uXXXX` (lines 1025-1081)
          (match hex_val h1, hex_val h2, hex_val h3, hex_val h4 with
           | some v1, some v2, some v3, some v4 =>
             let code := ((v1 * 16 + v2) * 16 + v3) * 16 + v4
             if code < 128 then
               -- 7 bit (lines 1041-1044)
               str_loop opts fuel (acc ++ [code]) rest1
             else if code < 2048 then
               -- 11 bit (lines 1045-1049)
               str_loop opts fuel (acc ++ [192 + code / 64 % 32, 128 + code % 64])
                 rest1
             else if code / 2048 = 27 then
               -- surrogate pair, `(code & 0xF800) == 0xD800` (1050-1074)
               match rest1 with
               | 92 :: 117 :: g1 :: g2 :: g3 :: g4 :: rest2 =>
                 (match hex_val g1, hex_val g2, hex_val g3, hex_val g4 with
                  | some w1, some w2, some w3, some w4 =>
                    let code2 := ((w1 * 16 + w2) * 16 + w3) * 16 + w4
                    -- swap a low-high ordered pair (lines 1062-1063)
                    let hi := if code / 1024 = 55 ∧ code2 / 1024 = 54
                              then code2 else code
                    let lo := if code / 1024 = 55 ∧ code2 / 1024 = 54
                              then code else code2
                    if hi / 1024 = 54 ∧ lo / 1024 = 55 then
                      let cp := (hi % 1024) * 1024 + lo % 1024 + 65536
                      str_loop opts fuel
                        (acc ++ [240 + cp / 262144 % 8, 128 + cp / 4096 % 64,
                                 128 + cp / 64 % 64, 128 + cp % 64]) rest2
                    else .error .bad_format  -- invalid pair (line 1068)
                  | _, _, _, _ => .error .bad_format)
               | _ => .error .bad_format  -- expected surrogate (1053-1054)
             else
               -- 16 bit (lines 1075-1080)
               str_loop opts fuel
                 (acc ++ [224 + code / 4096 % 16, 128 + code / 64 % 64,
                          128 + code % 64]) rest1
           | _, _, _, _ => .error .bad_format)
        | 117 :: _ => .error .bad_format  -- `\u` with fewer than 4 digits
        | e :: rest1 =>
          -- single-character escapes (lines 1016-1024); anything else is an
          -- invalid escape sequence (line 1084)
          if e = 110 then str_loop opts fuel (acc ++ [10]) rest1       -- \n
          else if e = 116 then str_loop opts fuel (acc ++ [9]) rest1   -- \t
          else if e = 98 then str_loop opts fuel (acc ++ [8]) rest1    -- \b
          else if e = 102 then str_loop opts fuel (acc ++ [12]) rest1  -- \f
          else if e = 114 then str_loop opts fuel (acc ++ [13]) rest1  -- \r
          else if e = 92 then str_loop opts fuel (acc ++ [92]) rest1
          else if e = 47 then str_loop opts fuel (acc ++ [47]) rest1
          else if e = 34 then str_loop opts fuel (acc ++ [34]) rest1
          else if e = 39 then str_loop opts fuel (acc ++ [39]) rest1
          else .error .bad_format
        | [] => .error .bad_format        -- escape at end of input
      else if c = 34 then .ok (acc, rest) -- closing quote (line 1087)
      else if c < 32 ∨ c = 127 then
        .error .bad_format                -- control character (line 1089)
      else if c = 47 ∧ !has_option opts jpo_allow_unescaped_forward_slash then
        .error .bad_format                -- unescaped slash (line 1090)
      else str_loop opts fuel (acc ++ [c]) rest

/-- `read_string` (lines 1002-1096): the caller dispatches on a `"`. -/
def read_string (opts : Nat) (l : List Nat) :
    Except NanoErr (Json × List Nat) :=
  match l with
  | c :: rest =>
    if c = 34 then
      match str_loop opts (rest.length + 1) [] rest with
      | .ok (s, r) => .ok (.string s, r)
      | .error e => .error e
    else .error .bad_format  -- assert(*input_ == quote) at line 1006
  | [] => .error .bad_format

/-- Unquoted-object-key loop predicate (line 1152):
`*input_ != EOF && *input_ > ' ' && *input_ != ':'`. -/
def is_key_char (c : Nat) : Bool := c > 32 && c ≠ 58

/-! ## `read_element`, `read_array`, `read_object` (lines 796-1190)

The recursive productions run on fuel: each step of the array and object
element loops and each nested element costs one unit.  `json.parse` below
passes `length + 1` units, which the reader can never exhaust, because
every step first consumes at least one byte of input. -/

mutual

/-- `read_element` (lines 796-850), with the `[`/`{` branches continuing
into `read_array` (lines 1099-1129) and `read_object` (lines 1132-1190)
up to their element loops. -/
def read_element (opts : Nat) : Nat → List Nat →
    Except NanoErr (Json × List Nat)
  | 0, _ => .error .bad_format
  | fuel + 1, l =>
    match l with
    | c :: r =>
      -- the switch on the lookahead character (lines 798-849)
      if c = 110 then
        -- `null`: exact character matching (lines 800-805)
        match r with
        | 117 :: 108 :: 108 :: r2 => .ok (.null, r2)
        | _ => .error .bad_format
      else if c = 116 then
        -- `true` (lines 807-812)
        match r with
        | 114 :: 117 :: 101 :: r2 => .ok (.boolean true, r2)
        | _ => .error .bad_format
      else if c = 102 then
        -- `false` (lines 814-820)
        match r with
        | 97 :: 108 :: 115 :: 101 :: r2 => .ok (.boolean false, r2)
        | _ => .error .bad_format
      else if c = 43 ∨ c = 45 ∨ is_digit c then read_number opts (c :: r)
      else if c = 34 then read_string opts (c :: r)
      else if c = 91 then
        -- `[`: read_array (lines 1099-1129)
        (match eat_whitespaces opts r with
         | c2 :: r2 =>
           if c2 = 93 then .ok (.array [], r2)  -- empty array (line 1108)
           else read_array_items opts fuel [] (c2 :: r2)
         | [] => read_array_items opts fuel [] [])
      else if c = 123 then
        -- `{`: read_object (lines 1132-1190)
        (match eat_whitespaces opts r with
         | c2 :: r2 =>
           if c2 = 125 then .ok (.object [], r2)  -- empty object (1141)
           else read_object_items opts fuel [] (c2 :: r2)
         | [] => read_object_items opts fuel [] [])
      else .error .bad_format  -- expected an element (line 849)
    | [] => .error .bad_format

/-- The array element loop (lines 1111-1126). -/
def read_array_items (opts : Nat) : Nat → List Json → List Nat →
    Except NanoErr (Json × List Nat)
  | 0, _, _ => .error .bad_format
  | fuel + 1, acc, l =>
    match read_element opts fuel l with
    | .error e => .error e
    | .ok (v, r1) =>
      let r2 := eat_whitespaces opts r1
      match r2 with
      | c :: r3 =>
        if c = 44 then                     -- `,` (line 1118)
          let r4 := eat_whitespaces opts r3
          (match r4 with
           | c2 :: r5 =>
             if c2 = 93 then
               -- `]` after a comma: trailing comma (lines 1121-1122)
               if has_option opts jpo_allow_trailing_comma then
                 .ok (.array (acc ++ [v]), r5)
               else .error .bad_format
             else read_array_items opts fuel (acc ++ [v]) (c2 :: r5)
           | [] => read_array_items opts fuel (acc ++ [v]) [])
        else if c = 93 then
          .ok (.array (acc ++ [v]), r3)    -- `]` (line 1124)
        else .error .bad_format            -- `,` or `]` expected (line 1125)
      | [] => .error .bad_format

/-- The object member loop (lines 1144-1187); values are inserted with
`insert_or_assign` (line 1167), so a repeated key overwrites in place. -/
def read_object_items (opts : Nat) : Nat → List (JsString × Json) →
    List Nat → Except NanoErr (Json × List Nat)
  | 0, _, _ => .error .bad_format
  | fuel + 1, acc, l =>
    -- read the key (lines 1146-1156)
    let keyr : Except NanoErr (JsString × List Nat) :=
      match l with
      | c :: r =>
        if c = 34 then
          str_loop opts (r.length + 1) [] r  -- quoted key via read_string
        else if has_option opts jpo_allow_unquoted_object_key then
          .ok ((c :: r).takeWhile (fun b => is_key_char b),
               (c :: r).dropWhile (fun b => is_key_char b))
        else .error .bad_format            -- expected object key (line 1155)
      | [] =>
        if has_option opts jpo_allow_unquoted_object_key then .ok ([], [])
        else .error .bad_format
    match keyr with
    | .error e => .error e
    | .ok (key, r1) =>
      let r2 := eat_whitespaces opts r1
      match r2 with
      | c :: r3 =>
        if c = 58 then                     -- `:` (line 1160)
          let r4 := eat_whitespaces opts r3
          (match read_element opts fuel r4 with
           | .error e => .error e
           | .ok (v, r5) =>
             let acc2 := lm_insert_or_assign acc key v
             let r6 := eat_whitespaces opts r5
             match r6 with
             | c2 :: r7 =>
               if c2 = 44 then             -- `,` (line 1172)
                 let r8 := eat_whitespaces opts r7
                 (match r8 with
                  | c3 :: r9 =>
                    if c3 = 125 then
                      -- `}` after a comma: trailing comma (1177-1181)
                      if has_option opts jpo_allow_trailing_comma then
                        .ok (.object acc2, r9)
                      else .error .bad_format
                    else read_object_items opts fuel acc2 (c3 :: r9)
                  | [] => read_object_items opts fuel acc2 [])
               else if c2 = 125 then
                 .ok (.object acc2, r7)    -- `}` (line 1185)
               else .error .bad_format     -- `,` or `}` expected (line 1186)
             | [] => .error .bad_format)
        else .error .bad_format            -- expected `:` (line 1161)
      | [] => .error .bad_format

end

/-- `json_reader::execute` (lines 782-787): BOM, whitespace, one element.
There is no end-of-input check after the element. -/
def reader_execute (opts : Nat) (l : List Nat) :
    Except NanoErr (Json × List Nat) :=
  match eat_utf8bom opts l with
  | .error e => .error e
  | .ok l1 =>
    let l2 := eat_whitespaces opts l1
    read_element opts (l2.length + 1) l2

/-- `json::parse` (lines 463, 1562, 1536-1545): run the reader and return
the parsed element; unread input is simply left behind. -/
def json_parse (l : List Nat) (opts : Nat := jpo_default) :
    Except NanoErr Json :=
  match reader_execute opts l with
  | .ok (v, _) => .ok v
  | .error e => .error e

/-! ## Serialize options and float format (lines 344-365) -/

/-- `json_serialize_option::pretty`. -/
def jso_pretty : Nat := 1
/-- `json_serialize_option::debug_dump_type_as_comment` (bit 31). -/
def jso_debug_dump : Nat := 2147483648

/-- `std::chars_format`. -/
inductive ChFormat where
  | general
  | fixed
  | scientific
deriving DecidableEq

/-- `json_floating_format_options` (lines 361-365). -/
structure FloatFmt where
  floating_format : ChFormat := .general
  floating_precision : Int := 7

def default_float_fmt : FloatFmt := {}

/-- ASCII bytes of a literal. -/
def ascii (s : String) : List Nat := s.data.map Char.toNat

/-! ## `json_writer::write_string` (lines 1313-1339) -/

/-- Upper-case hexadecimal digit. -/
def hex_dig_up (x : Nat) : Nat := if x < 10 then 48 + x else 55 + x

/-- A `\u00XX` escape. -/
def esc_u (b : Nat) : List Nat :=
  [92, 117, 48, 48, hex_dig_up (b / 16), hex_dig_up (b % 16)]

/-- The 256-entry escape table `char_table_` (lines 1320-1331): `[]` means
the byte is emitted verbatim.  The table maps the short escapes exactly as
written in the source: note that the `\f` entry sits at index 0x12 (not at
form feed 0x0C, which maps to `\u000C`), and that entries from 0x80 on are
value-initialized, i.e. verbatim. -/
def char_table (b : Nat) : List Nat :=
  if b = 8 then [92, 98]          -- \b
  else if b = 9 then [92, 116]    -- \t
  else if b = 10 then [92, 110]   -- \n
  else if b = 13 then [92, 114]   -- \r
  else if b = 18 then [92, 102]   -- the misplaced \f entry at 0x12
  else if b < 32 then esc_u b
  else if b = 34 then [92, 34]    -- \"
  else if b = 47 then [92, 47]    -- \/
  else if b = 92 then [92, 92]    -- backslash
  else if b = 127 then esc_u b    -- \u007F
  else []

/-- One output byte of `write_string`. -/
def write_char (b : Nat) : List Nat :=
  let t := char_table b
  if t = [] then [b] else t

/-- `write_string` (lines 1313-1339): quote, escaped bytes, quote. -/
def write_string_bytes (s : JsString) : List Nat :=
  34 :: (s.flatMap write_char ++ [34])

/-! ## Floating-point output (lines 1400-1440)

`std::to_chars(value, format, precision)` behaves as `printf` `%.*g`,
`%.*f`, `%.*e`.  The digit selection is correct rounding (nearest, ties to
even) of the exact dyadic value to the requested number of decimal
digits; everything is integer arithmetic. -/

/-- `floor (log10 q)` for the positive rational `num / den`. -/
def floor_log10 (num den : Nat) : Int :=
  if num ≥ den then (declen (num / den) : Int) - 1
  else
    -- smallest k with num * 10^k ≥ den, as -k
    let est : Nat := declen den - declen num
    if num * npow 10 est ≥ den then -(est : Int) else -(est : Int) - 1

/-- Decimal significand of `M * 2^E` rounded to `p` significant digits
(`M > 0`, `p > 0`): returns the `p`-digit value `n` and the decimal
exponent `X` with `n * 10^(X-p+1) ~ M * 2^E`. -/
def round_sig (M : Nat) (E : Int) (p : Nat) : Nat × Int :=
  let x0 : Int :=
    if E ≥ 0 then (declen (M * npow 2 E.toNat) : Int) - 1
    else floor_log10 M (npow 2 (-E).toNat)
  let t : Int := (p : Int) - 1 - x0
  let num := M * npow 2 (max E 0).toNat * npow 10 (max t 0).toNat
  let den := npow 2 (max (-E) 0).toNat * npow 10 (max (-t) 0).toNat
  let n := rhe_div num den
  if n = npow 10 p then (npow 10 (p - 1), x0 + 1) else (n, x0)

/-- Left-pad a digit string with `0` up to width `w`. -/
def pad_digits (w : Nat) (ds : List Nat) : List Nat :=
  List.replicate (w - ds.length) 48 ++ ds

/-- Drop trailing `0` digits. -/
def strip_zeros (ds : List Nat) : List Nat :=
  (ds.reverse.dropWhile (fun c => c = 48)).reverse

/-- The `printf` exponent field: `e` then a sign then at least two
digits. -/
def exp_field (x : Int) : List Nat :=
  [101, if x < 0 then 45 else 43] ++ pad_digits 2 (nat_to_chars x.natAbs)

/-- `%.*g` of the positive value `M * 2^E` with precision `p` (treated as
1 when 0): scientific style when the decimal exponent `X` is below -4 or
at least `p`, fixed style otherwise; trailing fraction zeros removed, the
point removed when no fraction remains. -/
def fmt_general_pos (M : Nat) (E : Int) (p0 : Nat) : List Nat :=
  let p := max p0 1
  let r := round_sig M E p
  let ds := pad_digits p (nat_to_chars r.1)
  let x := r.2
  if x < -4 ∨ x ≥ (p : Int) then
    -- scientific style with stripped fraction
    let frac := strip_zeros (ds.drop 1)
    ds.take 1 ++ (if frac = [] then [] else 46 :: frac) ++ exp_field x
  else if x ≥ 0 then
    let ip := ds.take (x.toNat + 1)
    let frac := strip_zeros (ds.drop (x.toNat + 1))
    ip ++ (if frac = [] then [] else 46 :: frac)
  else
    let frac := strip_zeros (List.replicate (-(x + 1)).toNat 48 ++ ds)
    [48, 46] ++ frac

/-- `%.*e` of the positive value `M * 2^E`: one leading digit, `p` fixed
fraction digits (no stripping), exponent field. -/
def fmt_scientific_pos (M : Nat) (E : Int) (p : Nat) : List Nat :=
  let r := round_sig M E (p + 1)
  let ds := pad_digits (p + 1) (nat_to_chars r.1)
  ds.take 1 ++ (if p = 0 then [] else 46 :: ds.drop 1) ++ exp_field r.2

/-- `%.*f` of the positive value `M * 2^E`: the value rounded at `p`
decimal places, with exactly `p` fraction digits. -/
def fmt_fixed_pos (M : Nat) (E : Int) (p : Nat) : List Nat :=
  let num := M * npow 2 (max E 0).toNat * npow 10 p
  let den := npow 2 (max (-E) 0).toNat
  let n := rhe_div num den
  let ip := n / npow 10 p
  let frac := pad_digits p (nat_to_chars (n % npow 10 p))
  nat_to_chars ip ++ (if p = 0 then [] else 46 :: frac)

/-- `std::to_chars` for a finite `long double` (lines 1425-1429): minus
sign for negatives, then the chosen `printf` style.  Zero prints as `0`
in general style, `0.00…0` in fixed, `0.00…0e+00` in scientific. -/
def to_chars_float (m : Int) (e : Int) (fm : ChFormat) (p : Nat) : List Nat :=
  let sign : List Nat := if m < 0 then [45] else []
  let M := m.natAbs
  if M = 0 then
    match fm with
    | .general => sign ++ [48]
    | .fixed => sign ++ fmt_fixed_pos 0 0 p ++ []
    | .scientific =>
      sign ++ [48] ++ (if p = 0 then [] else 46 :: List.replicate p 48)
        ++ exp_field 0
  else
    match fm with
    | .general => sign ++ fmt_general_pos M e p
    | .fixed => sign ++ fmt_fixed_pos M e p
    | .scientific => sign ++ fmt_scientific_pos M e p

/-- `|m * 2^e| < 10^p`? -/
def dy_lt_pow10 (m : Int) (e : Int) (p : Nat) : Bool :=
  let M := m.natAbs
  if e ≥ 0 then M * npow 2 e.toNat < npow 10 p
  else M < npow 10 p * npow 2 (-e).toNat

/-- `|m * 2^e| > 10^-p`? -/
def dy_gt_pow10_neg (m : Int) (e : Int) (p : Nat) : Bool :=
  let M := m.natAbs
  if e ≥ 0 then M * npow 2 e.toNat * npow 10 p > 1
  else M * npow 10 p > npow 2 (-e).toNat

/-- `write_element(js_floating)` (lines 1400-1440): NaN is a `bad_value`
unless debug dumping is on; infinities print as the out-of-range sentinel
`±1.0e999999999`; a finite value prints with the caller's format, which is
downgraded to general when the magnitude leaves `(10^-precision,
10^precision)` (the source compares against `std::pow` results; under the
default general format the comparison cannot change the outcome, and the
comparison is modelled exactly). -/
def write_floating_element (debug : Bool) (fmt : FloatFmt) (v : JFloat) :
    Except NanoErr (List Nat) :=
  let pre : List Nat := if debug then ascii "/***  FLOATING  ***/ " else []
  match v with
  | .nan =>
    if debug then .ok (pre ++ ascii "NaN /* not allowed */")
    else .error .bad_value
  | .inf negative =>
    .ok (pre ++ (if negative then ascii "-1.0e999999999"
                 else ascii "1.0e999999999"))
  | .finite m e =>
    let p : Nat := (max 0 (min fmt.floating_precision 64)).toNat
    let fm := if dy_lt_pow10 m e p ∧ dy_gt_pow10_neg m e p
              then fmt.floating_format else ChFormat.general
    .ok (pre ++ to_chars_float m e fm p)

/-! ## `json_writer::write_element` (lines 1275-1532)

The writer recurses over the element structure, carrying the indent stack
(`indent_stack_`, two spaces pushed for each open container) and
producing the emitted bytes. -/

mutual

/-- `write_element` (lines 1351-1531), dispatching on the variant. -/
def write_element (opts : Nat) (fmt : FloatFmt) (ind : List Nat) :
    Json → Except NanoErr (List Nat)
  | .undefined =>
    -- lines 1367-1372
    if has_option opts jso_debug_dump then
      .ok (ascii "/***  UNDEFINED  ***/ undefined /* not allowed */")
    else .error .bad_value
  | .null =>
    -- lines 1375-1380
    .ok ((if has_option opts jso_debug_dump then ascii "/***  NULL  ***/ "
          else []) ++ ascii "null")
  | .boolean b =>
    -- lines 1383-1388
    .ok ((if has_option opts jso_debug_dump then ascii "/***  BOOLEAN  ***/ "
          else []) ++ (if b then ascii "true" else ascii "false"))
  | .integer i =>
    -- lines 1391-1397
    .ok ((if has_option opts jso_debug_dump then ascii "/***  INTEGER  ***/ "
          else []) ++ int_to_chars i)
  | .floating f =>
    write_floating_element (has_option opts jso_debug_dump) fmt f
  | .string s =>
    -- lines 1443-1453
    .ok ((if has_option opts jso_debug_dump then
            ascii "/***  STRING[" ++ nat_to_chars s.length ++ ascii "]  ***/ "
          else []) ++ write_string_bytes s)
  | .array xs =>
    -- lines 1456-1490
    let pre : List Nat :=
      if has_option opts jso_debug_dump then
        ascii "/***  ARRAY[" ++ nat_to_chars xs.length ++ ascii "]  ***/ "
      else []
    (match xs with
     | [] => .ok (pre ++ [91, 93])
     | _ =>
       match write_array_body opts fmt (ind ++ [32, 32]) true xs with
       | .error e => .error e
       | .ok inner =>
         .ok (pre ++ [91]
           ++ (if has_option opts jso_pretty then [10] else []) ++ inner
           ++ (if has_option opts jso_pretty then 10 :: ind else [])
           ++ [93]))
  | .object kvs =>
    -- lines 1493-1531
    let pre : List Nat :=
      if has_option opts jso_debug_dump then
        ascii "/***  OBJECT[" ++ nat_to_chars kvs.length ++ ascii "]  ***/ "
      else []
    (match kvs with
     | [] => .ok (pre ++ [123, 125])
     | _ =>
       match write_object_body opts fmt (ind ++ [32, 32]) true kvs with
       | .error e => .error e
       | .ok inner =>
         .ok (pre ++ [123]
           ++ (if has_option opts jso_pretty then [10] else []) ++ inner
           ++ (if has_option opts jso_pretty then 10 :: ind else [])
           ++ [125]))

/-- The array element loop (lines 1471-1480): a comma (plus newline and
indent when pretty) before every element but the first. -/
def write_array_body (opts : Nat) (fmt : FloatFmt) (ind : List Nat) :
    Bool → List Json → Except NanoErr (List Nat)
  | _, [] => .ok []
  | first, x :: rest =>
    match write_element opts fmt ind x with
    | .error e => .error e
    | .ok w =>
      match write_array_body opts fmt ind false rest with
      | .error e => .error e
      | .ok t =>
        .ok ((if first then []
              else 44 :: (if has_option opts jso_pretty then [10] else []))
          ++ (if has_option opts jso_pretty then ind else []) ++ w ++ t)

/-- The object member loop (lines 1509-1521): escaped key, colon (plus a
space when pretty), then the value. -/
def write_object_body (opts : Nat) (fmt : FloatFmt) (ind : List Nat) :
    Bool → List (JsString × Json) → Except NanoErr (List Nat)
  | _, [] => .ok []
  | first, (k, v) :: rest =>
    match write_element opts fmt ind v with
    | .error e => .error e
    | .ok w =>
      match write_object_body opts fmt ind false rest with
      | .error e => .error e
      | .ok t =>
        .ok ((if first then []
              else 44 :: (if has_option opts jso_pretty then [10] else []))
          ++ (if has_option opts jso_pretty then ind else [])
          ++ write_string_bytes k ++ [58]
          ++ (if has_option opts jso_pretty then [32] else []) ++ w ++ t)

end

/-- `json::serialize` (lines 464, 1564, 1547-1559): compact by default
(`json_serialize_option::none`), default float format general with
precision 7.  The writer starts with an empty indent stack. -/
def json_serialize (v : Json) (opts : Nat := 0)
    (fmt : FloatFmt := default_float_fmt) : Except NanoErr (List Nat) :=
  write_element opts fmt [] v

/-! ## Value accessors (lines 479-551)

`is<T>` / `as<T>` / `get<T>` / `get_or<T>` on the active variant: `as_*`
returns a nullable view, `get_*` raises `bad_access` on a variant
mismatch, `get_*_or` substitutes the default. -/

def is_defined : Json → Bool
  | .undefined => false
  | _ => true

def is_undefined (v : Json) : Bool := !is_defined v

def is_string : Json → Bool
  | .string _ => true
  | _ => false

def as_string : Json → Option JsString
  | .string s => some s
  | _ => none

def as_boolean : Json → Option Bool
  | .boolean b => some b
  | _ => none

def as_integer : Json → Option Int
  | .integer i => some i
  | _ => none

/-- `get<T>` (line 501): the value or `bad_access`. -/
def get_string (v : Json) : Except NanoErr JsString :=
  match as_string v with
  | some s => .ok s
  | none => .error .bad_access

def get_boolean (v : Json) : Except NanoErr Bool :=
  match as_boolean v with
  | some b => .ok b
  | none => .error .bad_access

def get_integer (v : Json) : Except NanoErr Int :=
  match as_integer v with
  | some i => .ok i
  | none => .error .bad_access

/-- `get_or<T>` (line 511): the value or the supplied default. -/
def get_string_or (v : Json) (d : JsString) : JsString := (as_string v).getD d

def get_boolean_or (v : Json) (d : Bool) : Bool := (as_boolean v).getD d

def get_integer_or (v : Json) (d : Int) : Int := (as_integer v).getD d

/-! ## `json::operator[]` const (lines 667-683): read-only lookups that
return the shared `undefined_reference` on any miss. -/

def const_index_idx (v : Json) (i : Nat) : Json :=
  match v with
  | .array xs => (xs.get? i).getD .undefined
  | _ => .undefined

def const_index_key (v : Json) (k : JsString) : Json :=
  match v with
  | .object kvs => (lm_find kvs k).getD .undefined
  | _ => .undefined

/-! ## `json::node_reference` (lines 581-665)

The cursor's pointer state (lines 584-588) is one of: the undefined
pointer, a pointer at a real node, a pending array slot `(array, index)`,
or a pending object slot `(object, key)`.  Pointers into the tree are
modelled as access paths from the root value; the operations below mirror
the member functions, with the root tree passed explicitly. -/

inductive PStep where
  | idx (i : Nat)
  | key (k : JsString)

mutual

/-- The node a path points at, if any. -/
def get_path : Json → List PStep → Option Json
  | v, [] => some v
  | .array xs, .idx i :: p => get_path_list xs i p
  | .object kvs, .key k :: p => get_path_kvs kvs k p
  | _, _ => none

def get_path_list : List Json → Nat → List PStep → Option Json
  | [], _, _ => none
  | x :: _, 0, p => get_path x p
  | _ :: rest, i + 1, p => get_path_list rest i p

def get_path_kvs : List (JsString × Json) → JsString → List PStep →
    Option Json
  | [], _, _ => none
  | (k0, v0) :: rest, k, p =>
    if k0 = k then get_path v0 p else get_path_kvs rest k p

end

mutual

/-- Functional update of the node at a path (identity when the path does
not resolve, which never happens for pointers formed by the API below). -/
def set_path : Json → List PStep → Json → Json
  | _, [], w => w
  | .array xs, .idx i :: p, w => .array (set_path_list xs i p w)
  | .object kvs, .key k :: p, w => .object (set_path_kvs kvs k p w)
  | v, _, _ => v

def set_path_list : List Json → Nat → List PStep → Json → List Json
  | [], _, _, _ => []
  | x :: rest, 0, p, w => set_path x p w :: rest
  | x :: rest, i + 1, p, w => x :: set_path_list rest i p w

def set_path_kvs : List (JsString × Json) → JsString → List PStep → Json →
    List (JsString × Json)
  | [], _, _, _ => []
  | (k0, v0) :: rest, k, p, w =>
    if k0 = k then (k0, set_path v0 p w) :: rest
    else (k0, v0) :: set_path_kvs rest k p w

end

/-- `node_reference::pointer` (lines 584-589). -/
inductive NodePtr where
  | undef_ptr
  | normal (p : List PStep)
  | array_write (p : List PStep) (i : Nat)
  | object_write (p : List PStep) (k : JsString)

/-- `node_reference(json& r)` (line 593): a normal pointer at the root. -/
def node_ref_root : NodePtr := .normal []

/-- `node_reference::value` (lines 600-604): dereference a normal pointer;
every other state reads as the shared undefined value. -/
def node_value (root : Json) (ptr : NodePtr) : Json :=
  match ptr with
  | .normal p => (get_path root p).getD .undefined
  | _ => .undefined

/-- `node_reference::operator[](js_array_index)` (lines 609-623): only a
normal pointer at an array descends; an index past the end gives the
pending array slot, anything else the undefined pointer. -/
def node_index_idx (root : Json) (ptr : NodePtr) (i : Nat) : NodePtr :=
  match ptr with
  | .normal p =>
    (match get_path root p with
     | some (.array xs) =>
       if i < xs.length then .normal (p ++ [.idx i])
       else .array_write p i
     | _ => .undef_ptr)
  | _ => .undef_ptr

/-- `node_reference::operator[](js_object_key_view)` (lines 625-639). -/
def node_index_key (root : Json) (ptr : NodePtr) (k : JsString) : NodePtr :=
  match ptr with
  | .normal p =>
    (match get_path root p with
     | some (.object kvs) =>
       if lm_contains kvs k then .normal (p ++ [.key k])
       else .object_write p k
     | _ => .undef_ptr)
  | _ => .undef_ptr

/-- `node_reference::operator=` (lines 642-664).  A normal pointer assigns
in place; a pending array slot grows the array to `index + 1` slots
(`resize` value-initializes the new `json` elements, i.e. `undefined`) and
assigns the slot; a pending object slot runs `insert_or_assign`; in both
pending cases the cursor then repoints at the now-real node (lines 653,
660).  The undefined pointer raises `bad_access` (line 663).  The two
`bad_access` fallbacks on a non-resolving path are unreachable for
pointers formed by this API against an unchanged root (in C++ the pending
slot holds a raw container pointer). -/
def node_assign (root : Json) (ptr : NodePtr) (w : Json) :
    Except NanoErr (Json × NodePtr) :=
  match ptr with
  | .normal p => .ok (set_path root p w, .normal p)
  | .array_write p i =>
    (match get_path root p with
     | some (.array xs) =>
       let grown := if xs.length ≤ i
         then xs ++ List.replicate (i + 1 - xs.length) Json.undefined
         else xs
       .ok (set_path root p (.array (grown.set i w)), .normal (p ++ [.idx i]))
     | _ => .error .bad_access)
  | .object_write p k =>
    (match get_path root p with
     | some (.object kvs) =>
       .ok (set_path root p (.object (lm_insert_or_assign kvs k w)),
            .normal (p ++ [.key k]))
     | _ => .error .bad_access)
  | .undef_ptr => .error .bad_access

/-! ## Tree predicates used by the stated properties -/

mutual

/-- Whether a tree contains an `undefined` node or a NaN float anywhere;
these are exactly the nodes the writer refuses outside debug dumping. -/
def has_undef_or_nan : Json → Bool
  | .undefined => true
  | .floating .nan => true
  | .array xs => has_undef_or_nan_list xs
  | .object kvs => has_undef_or_nan_kvs kvs
  | _ => false

def has_undef_or_nan_list : List Json → Bool
  | [] => false
  | x :: rest => has_undef_or_nan x || has_undef_or_nan_list rest

def has_undef_or_nan_kvs : List (JsString × Json) → Bool
  | [] => false
  | (_, v) :: rest => has_undef_or_nan v || has_undef_or_nan_kvs rest

end

/-- A string the writer's escape table maps invertibly: bytes (below 256)
not equal to 0x12, the position whose table entry is the misplaced `\f`
(which re-reads as 0x0C). -/
def str_ok (s : JsString) : Bool := s.all (fun c => c < 256 && c ≠ 18)

mutual

/-- Trees whose default serialization parses back to the same tree:
no `undefined`, integers in the 64-bit range, floats only infinities
(every finite float is re-encoded through the default 7-significant-digit
general format, which loses precision in general and turns `±0` into the
integer `0`), strings and keys invertible under the escape table, and
object keys unique (the `linear_map` invariant). -/
def round_trippable : Json → Bool
  | .undefined => false
  | .null => true
  | .boolean _ => true
  | .integer i => decide (int64_min ≤ i ∧ i ≤ int64_max)
  | .floating f =>
    (match f with
     | .inf _ => true
     | _ => false)
  | .string s => str_ok s
  | .array xs => round_trippable_list xs
  | .object kvs => round_trippable_kvs kvs

def round_trippable_list : List Json → Bool
  | [] => true
  | x :: rest => round_trippable x && round_trippable_list rest

def round_trippable_kvs : List (JsString × Json) → Bool
  | [] => true
  | (k, v) :: rest =>
    str_ok k && !lm_contains rest k && round_trippable v
      && round_trippable_kvs rest

end

/-! # Claims

The theorems below settle the frozen claims about the program.  Byte-list
literals spell out the JSON input texts; each doc comment names the claim
and restates the property. -/

/-- C6: parsing the text `{"a":1,"a":2}` succeeds and yields an object
containing exactly one key `"a"` whose value is `2`, at the insertion
position of the first occurrence of the key (here the only position):
the reader's `insert_or_assign` overwrote the earlier value in place. -/
theorem c6_duplicate_key_overwrites_in_place :
    json_parse [123, 34, 97, 34, 58, 49, 44, 34, 97, 34, 58, 50, 125]
      = .ok (.object [([97], .integer 2)]) := rfl

/-- C8: parsing `{a:1,}` raises `bad_format` when no leniency option bits
are set, and succeeds with the object `{"a":1}` when unquoted object keys
and trailing commas are both enabled. -/
theorem c8_leniency_gating :
    json_parse [123, 97, 58, 49, 44, 125] 0 = .error .bad_format
    ∧ json_parse [123, 97, 58, 49, 44, 125]
        (jpo_allow_unquoted_object_key + jpo_allow_trailing_comma)
      = .ok (.object [([97], .integer 1)]) :=
  ⟨rfl, rfl⟩

/-- C9: parsing the quoted string `"A😃"` yields the
two-character string of ASCII `A` (0x41) followed by the four UTF-8 bytes
F0 9F 98 83 of U+1F603, the code point reconstructed from the surrogate
pair; serializing that string back emits its printable bytes literally
between quotes, while control and quote characters (exercised on
0x01, `"`) are escaped. -/
theorem c9_unicode_escapes_roundtrip :
    json_parse [34, 92, 117, 48, 48, 52, 49, 92, 117, 68, 56, 51, 68,
                92, 117, 68, 69, 48, 51, 34]
      = .ok (.string [65, 240, 159, 152, 131])
    ∧ json_serialize (.string [65, 240, 159, 152, 131])
      = .ok [34, 65, 240, 159, 152, 131, 34]
    ∧ json_serialize (.string [1, 34, 65])
      = .ok [34, 92, 117, 48, 48, 48, 49, 92, 34, 65, 34] :=
  ⟨rfl, rfl, rfl⟩

/-- C3, counterexample: the claim says parsing `1e400` yields float
`+infinity` and parsing `1e-400` yields float `+0`.  With `js_floating`
equal to `long double`, the extended-precision format (range up to about
1.19e4932), both parse to finite values: `1e400` to the correctly rounded
`7870919839581207795 * 2^1266` and `1e-400` to
`5404107363819945341 * 2^-1391`, neither infinite nor zero. -/
theorem c3_counterexample_extended_range :
    json_parse [49, 101, 52, 48, 48]
      = .ok (.floating (.finite 7870919839581207795 1266))
    ∧ JFloat.finite 7870919839581207795 1266 ≠ .inf false
    ∧ json_parse [49, 101, 45, 52, 48, 48]
      = .ok (.floating (.finite 5404107363819945341 (-1391)))
    ∧ JFloat.finite 5404107363819945341 (-1391) ≠ .finite 0 0 :=
  ⟨rfl, by decide, rfl, by decide⟩

/-- C3, amended: parsing `9223372036854775807` yields the integer
`2^63 - 1`; parsing `9223372036854775808` (one past the signed 64-bit
maximum) yields a float, the exactly-represented `2^63`; parsing `1e400`
and `1e-400` yields finite nonzero floats (the exponents sit inside the
extended-precision range of `long double`); magnitudes beyond that range
map to `+infinity` (overflow, e.g. `1e99999`) and `+0` (underflow, e.g.
`1e-99999`) rather than parse errors. -/
theorem c3_number_boundaries_extended :
    json_parse [57, 50, 50, 51, 51, 55, 50, 48, 51, 54, 56, 53, 52, 55,
                55, 53, 56, 48, 55]
      = .ok (.integer 9223372036854775807)
    ∧ json_parse [57, 50, 50, 51, 51, 55, 50, 48, 51, 54, 56, 53, 52, 55,
                  55, 53, 56, 48, 56]
      = .ok (.floating (.finite 1 63))
    ∧ json_parse [49, 101, 52, 48, 48]
      = .ok (.floating (.finite 7870919839581207795 1266))
    ∧ json_parse [49, 101, 45, 52, 48, 48]
      = .ok (.floating (.finite 5404107363819945341 (-1391)))
    ∧ json_parse [49, 101, 57, 57, 57, 57, 57]
      = .ok (.floating (.inf false))
    ∧ json_parse [49, 101, 45, 57, 57, 57, 57, 57]
      = .ok (.floating (.finite 0 0)) :=
  ⟨rfl, rfl, rfl, rfl, rfl, rfl⟩

/-- C2, counterexample: starting from the empty object `v = {}`, the
chained assignment `v["a"][2] = 5` does not succeed: `v["a"]` is a
pending (write-only) object slot, indexing `[2]` through it yields the
undefined pointer (`node_reference::operator[]` descends only through a
normal pointer), and assigning through the undefined pointer raises
`bad_access`. -/
theorem c2_counterexample_chain_through_pending_slot :
    node_index_key (Json.object []) node_ref_root [97]
      = .object_write [] [97]
    ∧ node_index_idx (Json.object [])
        (node_index_key (Json.object []) node_ref_root [97]) 2
      = .undef_ptr
    ∧ node_assign (Json.object [])
        (node_index_idx (Json.object [])
          (node_index_key (Json.object []) node_ref_root [97]) 2)
        (.integer 5)
      = .error .bad_access :=
  ⟨rfl, rfl, rfl⟩

/-- C2, amended: starting from `v = {"a": []}` (the chain from `v = {}`
raises `bad_access`, see the counterexample), `v["a"][2] = 5` succeeds:
indexing yields a pending array slot, the assignment grows the backing
array to three slots filling the two intervening elements with
`undefined` placeholders (`resize` value-initializes `json`), giving
`{"a": [undefined, undefined, 5]}`, and repoints the cursor at the
now-real slot; a second assignment through the same cursor then goes
through the normal-pointer branch, updating the slot in place: the array
still has exactly three elements and the key is not re-inserted. -/
theorem c2_lazy_write_materialization_from_real_array :
    node_index_idx (Json.object [([97], .array [])])
        (node_index_key (Json.object [([97], .array [])]) node_ref_root [97])
        2
      = .array_write [.key [97]] 2
    ∧ node_assign (Json.object [([97], .array [])])
        (.array_write [.key [97]] 2) (.integer 5)
      = .ok (.object [([97], .array [.undefined, .undefined, .integer 5])],
             .normal [.key [97], .idx 2])
    ∧ node_assign
        (Json.object [([97], .array [.undefined, .undefined, .integer 5])])
        (.normal [.key [97], .idx 2]) (.integer 7)
      = .ok (.object [([97], .array [.undefined, .undefined, .integer 7])],
             .normal [.key [97], .idx 2]) :=
  ⟨rfl, rfl, rfl⟩

/-- A key is missing from `v`: `v` is not an object whose map contains
the key.  (For a non-object, every key is missing.) -/
def key_missing (v : Json) (k : JsString) : Bool :=
  match v with
  | .object kvs => !lm_contains kvs k
  | _ => true

/-- C5: reading a missing key never throws: both the const index operator
and a `node_reference` read produce the `undefined` value, on which
`is_defined` is `false` and `get_string_or d` is `d` — for every value
`v`, object or not.  And for every value `w`, only a requiring accessor
(`get_string`) produces an error — `bad_access`, exactly on a variant
mismatch — while `as_string` and `get_string_or` are total: on a
mismatch they return `none` and the default. -/
theorem c5_missing_key_reads_never_throw :
    (∀ (v : Json) (k : JsString) (d : JsString), key_missing v k = true →
      const_index_key v k = .undefined
      ∧ is_defined (const_index_key v k) = false
      ∧ get_string_or (const_index_key v k) d = d
      ∧ node_value v (node_index_key v node_ref_root k) = .undefined)
    ∧ (∀ w : Json,
        (get_string w).isOk = is_string w
        ∧ (is_string w = false →
            get_string w = .error .bad_access
            ∧ as_string w = none
            ∧ ∀ d, get_string_or w d = d)
        ∧ ∀ s, as_string w = some s → get_string w = .ok s) := by
  constructor
  · intro v k d hmiss
    have hidx : const_index_key v k = .undefined := by
      cases v <;> simp_all [key_missing, const_index_key]
      next kvs =>
        induction kvs with
        | nil => simp [lm_find]
        | cons kv rest ih =>
          obtain ⟨k0, v0⟩ := kv
          by_cases h : k0 = k <;> simp_all [lm_contains, lm_find]
    have hnode : node_value v (node_index_key v node_ref_root k)
        = .undefined := by
      cases v <;>
        simp_all [node_index_key, node_ref_root, get_path, node_value,
          key_missing]
    exact ⟨hidx, by rw [hidx]; rfl, by rw [hidx]; rfl, hnode⟩
  · intro w
    refine ⟨?_, ?_, ?_⟩
    · cases w <;> rfl
    · intro h
      cases w <;> simp_all [is_string, get_string, as_string, get_string_or]
    · intro s h
      cases w <;> simp_all [get_string, as_string]

/-- C5 witness: the general theorem applied at the object `{"b": 1}`, the
missing key `"nokey"` would be, concretely, key `n`, default `x`; and at
the integer `3` for the accessor half. -/
theorem c5_missing_key_witness :
    const_index_key (Json.object [([98], .integer 1)]) [110] = .undefined
    ∧ get_string_or (const_index_key (Json.object [([98], .integer 1)])
        [110]) [120] = [120]
    ∧ get_string (Json.integer 3) = .error .bad_access := by
  obtain ⟨h1, h2⟩ := c5_missing_key_reads_never_throw
  obtain ⟨ha, _, hc, _⟩ := h1 (Json.object [([98], .integer 1)]) [110] [120]
    (by decide)
  exact ⟨ha, hc, ((h2 (Json.integer 3)).2.1 (by decide)).1⟩

/-! ## C7: the `linear_map` ordered-container invariant -/

/-- The key sequence of the container. -/
def lm_keys (m : List (JsString × Json)) : List JsString := m.map Prod.fst

/-- One `linear_map` mutation: `insert`, `insert_or_assign`,
`try_emplace` (which inserts without assignment, like `insert`), or
`erase`. -/
inductive LmOp where
  | ins (k : JsString) (v : Json)
  | insAssign (k : JsString) (v : Json)
  | tryEmp (k : JsString) (v : Json)
  | erase (k : JsString)

/-- Apply one mutation. -/
def lm_apply (m : List (JsString × Json)) : LmOp → List (JsString × Json)
  | .ins k v => lm_insert m k v
  | .insAssign k v => lm_insert_or_assign m k v
  | .tryEmp k v => lm_insert m k v
  | .erase k => lm_erase m k

theorem lm_contains_iff_mem (m : List (JsString × Json)) (k : JsString) :
    lm_contains m k = true ↔ k ∈ lm_keys m := by
  induction m with
  | nil => simp [lm_contains, lm_keys]
  | cons kv rest ih =>
    obtain ⟨k0, v0⟩ := kv
    by_cases h : k0 = k <;> simp_all [lm_contains, lm_keys]
    exact fun a => (h a.symm).elim

theorem lm_insert_absent {m : List (JsString × Json)} {k : JsString}
    (v : Json) (h : lm_contains m k = false) :
    lm_insert m k v = m ++ [(k, v)] := by
  induction m with
  | nil => rfl
  | cons kv rest ih =>
    obtain ⟨k0, v0⟩ := kv
    by_cases hk : k0 = k <;> simp_all [lm_contains, lm_insert]

theorem lm_insert_present {m : List (JsString × Json)} {k : JsString}
    (v : Json) (h : lm_contains m k = true) :
    lm_insert m k v = m := by
  induction m with
  | nil => simp [lm_contains] at h
  | cons kv rest ih =>
    obtain ⟨k0, v0⟩ := kv
    by_cases hk : k0 = k <;> simp_all [lm_contains, lm_insert]

theorem lm_insert_or_assign_absent {m : List (JsString × Json)}
    {k : JsString} (v : Json) (h : lm_contains m k = false) :
    lm_insert_or_assign m k v = m ++ [(k, v)] := by
  induction m with
  | nil => rfl
  | cons kv rest ih =>
    obtain ⟨k0, v0⟩ := kv
    by_cases hk : k0 = k <;> simp_all [lm_contains, lm_insert_or_assign]

theorem lm_insert_or_assign_keys {m : List (JsString × Json)}
    {k : JsString} (v : Json) (h : lm_contains m k = true) :
    lm_keys (lm_insert_or_assign m k v) = lm_keys m := by
  induction m with
  | nil => simp [lm_contains] at h
  | cons kv rest ih =>
    obtain ⟨k0, v0⟩ := kv
    by_cases hk : k0 = k <;>
      simp_all [lm_contains, lm_insert_or_assign, lm_keys]

theorem lm_map_replace_id {rest : List (JsString × Json)} {k : JsString}
    {v : Json} (h : k ∉ lm_keys rest) :
    rest.map (fun p => if p.1 = k then (p.1, v) else p) = rest := by
  induction rest with
  | nil => rfl
  | cons kv t ih =>
    obtain ⟨k0, v0⟩ := kv
    simp only [lm_keys, List.map_cons, List.mem_cons] at h ⊢
    have hne : k0 ≠ k := fun e => h (Or.inl e.symm)
    simp [hne, ih (fun hm => h (Or.inr hm))]

/-- `insert_or_assign` on a present key, with unique keys, is exactly the
in-place value replacement at that key: no pair moves. -/
theorem lm_insert_or_assign_present {m : List (JsString × Json)}
    {k : JsString} (v : Json) (hnd : (lm_keys m).Nodup)
    (h : lm_contains m k = true) :
    lm_insert_or_assign m k v
      = m.map (fun p => if p.1 = k then (p.1, v) else p) := by
  induction m with
  | nil => simp [lm_contains] at h
  | cons kv rest ih =>
    obtain ⟨k0, v0⟩ := kv
    simp only [lm_keys, List.map_cons, List.nodup_cons] at hnd
    by_cases hk : k0 = k
    · subst hk
      simp [lm_insert_or_assign, lm_map_replace_id (v := v) hnd.1]
    · have hc : lm_contains rest k = true := by
        simpa [lm_contains, hk] using h
      simp [lm_insert_or_assign, hk, ih hnd.2 hc]

theorem lm_erase_keys_subset (m : List (JsString × Json)) (k : JsString) :
    lm_keys (lm_erase m k) ⊆ lm_keys m := by
  induction m with
  | nil => simp [lm_erase]
  | cons kv rest ih =>
    obtain ⟨k0, v0⟩ := kv
    by_cases hk : k0 = k
    · simp only [lm_erase, if_pos hk, lm_keys, List.map_cons]
      exact List.subset_cons_of_subset k0 (List.Subset.refl _)
    · simp only [lm_erase, if_neg hk, lm_keys, List.map_cons]
      exact List.cons_subset_cons k0 ih

theorem lm_erase_nodup {m : List (JsString × Json)} (k : JsString)
    (hnd : (lm_keys m).Nodup) : (lm_keys (lm_erase m k)).Nodup := by
  induction m with
  | nil => simpa [lm_erase] using hnd
  | cons kv rest ih =>
    obtain ⟨k0, v0⟩ := kv
    simp only [lm_keys, List.map_cons, List.nodup_cons] at hnd
    by_cases hk : k0 = k
    · simpa [lm_erase, hk, lm_keys] using hnd.2
    · have hnm : k0 ∉ lm_keys (lm_erase rest k) :=
        fun hm => hnd.1 (lm_erase_keys_subset rest k hm)
      simp only [lm_erase, if_neg hk, lm_keys, List.map_cons,
        List.nodup_cons]
      exact ⟨hnm, ih hnd.2⟩

theorem lm_apply_nodup {m : List (JsString × Json)} (op : LmOp)
    (hnd : (lm_keys m).Nodup) : (lm_keys (lm_apply m op)).Nodup := by
  have hins : ∀ (k : JsString) (v : Json),
      (lm_keys (lm_insert m k v)).Nodup := by
    intro k v
    by_cases h : lm_contains m k = true
    · rw [lm_insert_present v h]; exact hnd
    · rw [lm_insert_absent v (by simpa using h)]
      simp only [lm_keys, List.map_append, List.map_cons, List.map_nil]
      refine List.Nodup.append hnd (by simp) ?_
      intro a ha hb
      simp only [List.mem_singleton] at hb
      subst hb
      have hnotmem : a ∉ lm_keys m := by simpa [lm_contains_iff_mem] using h
      exact hnotmem ha
  cases op with
  | ins k v => exact hins k v
  | tryEmp k v => exact hins k v
  | insAssign k v =>
    by_cases h : lm_contains m k = true
    · rw [lm_apply, lm_insert_or_assign_keys v h]; exact hnd
    · rw [lm_apply, lm_insert_or_assign_absent v (by simpa using h)]
      simp only [lm_keys, List.map_append, List.map_cons, List.map_nil]
      refine List.Nodup.append hnd (by simp) ?_
      intro a ha hb
      simp only [List.mem_singleton] at hb
      subst hb
      have hnotmem : a ∉ lm_keys m := by simpa [lm_contains_iff_mem] using h
      exact hnotmem ha
  | erase k => exact lm_erase_nodup k hnd

/-- C7: across every sequence of `insert`, `insert_or_assign`,
`try_emplace` and `erase` operations the container keeps its keys unique,
new keys are appended at the end in first-insertion order, and
`insert_or_assign` on an already-present key overwrites the mapped value
in place — the key sequence is unchanged and every other pair is kept
verbatim. -/
theorem c7_linear_map_invariant :
    (∀ (m : List (JsString × Json)) (ops : List LmOp),
      (lm_keys m).Nodup → (lm_keys (ops.foldl lm_apply m)).Nodup)
    ∧ (∀ (m : List (JsString × Json)) (k : JsString) (v : Json),
        lm_contains m k = false →
          lm_insert m k v = m ++ [(k, v)]
          ∧ lm_insert_or_assign m k v = m ++ [(k, v)])
    ∧ (∀ (m : List (JsString × Json)) (k : JsString) (v : Json),
        (lm_keys m).Nodup → lm_contains m k = true →
          lm_keys (lm_insert_or_assign m k v) = lm_keys m
          ∧ lm_insert_or_assign m k v
              = m.map (fun p => if p.1 = k then (p.1, v) else p)
          ∧ lm_insert m k v = m) := by
  refine ⟨?_, ?_, ?_⟩
  · intro m ops
    induction ops generalizing m with
    | nil => exact fun h => h
    | cons op rest ih =>
      intro h
      exact ih (lm_apply m op) (lm_apply_nodup op h)
  · intro m k v h
    exact ⟨lm_insert_absent v h, lm_insert_or_assign_absent v h⟩
  · intro m k v hnd h
    exact ⟨lm_insert_or_assign_keys v h,
           lm_insert_or_assign_present v hnd h,
           lm_insert_present v h⟩

/-- C7 witness: the invariant chain applied to a concrete operation
sequence on the empty container, and the in-place overwrite applied at a
present key of a two-key container. -/
theorem c7_linear_map_invariant_witness :
    (lm_keys (([LmOp.ins [97] (.integer 1), LmOp.insAssign [98] (.integer 2),
        LmOp.insAssign [97] (.integer 3), LmOp.erase [98],
        LmOp.tryEmp [99] (.integer 4)] : List LmOp).foldl
          lm_apply [])).Nodup
    ∧ lm_insert_or_assign [([97], Json.integer 1), ([98], Json.integer 2)]
        [97] (.integer 9)
      = [([97], Json.integer 9), ([98], Json.integer 2)] := by
  obtain ⟨h1, _, h3⟩ := c7_linear_map_invariant
  refine ⟨h1 [] _ (by simp [lm_keys]), ?_⟩
  have := (h3 [([97], Json.integer 1), ([98], Json.integer 2)] [97]
    (.integer 9) (by simp [lm_keys]) (by decide)).2.1
  rw [this]
  rfl

/-- C10: `parse` stops after the first complete top-level element and
never inspects the rest of the input.  For `{}` followed by any byte
sequence whatsoever the parse succeeds with the empty object, and for `1`
followed by any byte sequence whose first byte cannot extend the number
(no digit, `.`, `e`, `E` — every delimiter and all of `xyz` qualify) the
parse succeeds with the integer `1`; no `bad_format` arises from the
trailing bytes. -/
theorem c10_parse_ignores_trailing_input :
    (∀ suffix : List Nat,
      json_parse ([123, 125] ++ suffix) = .ok (.object []))
    ∧ (∀ (c : Nat) (rest : List Nat), is_digit c = false → c ≠ 46 →
        c ≠ 101 → c ≠ 69 →
        json_parse (49 :: c :: rest) = .ok (.integer 1))
    ∧ json_parse [49] = .ok (.integer 1) := by
  refine ⟨fun suffix => rfl, ?_, rfl⟩
  intro c rest hd hdot he hE
  have hnum : read_number jpo_default (49 :: c :: rest)
      = .ok (.integer 1, c :: rest) := by
    have h1 : rn_int_part [] (49 :: c :: rest) = .ok ([49], 0, c :: rest) := by
      simp [rn_int_part, int_digits_loop, hd,
        show is_digit 49 = true from rfl]
    have h2 : rn_frac_part [49] 0 (c :: rest) = .ok ([49], 0, c :: rest, true) := by
      simp [rn_frac_part, hdot]
    have h3 : rn_exp_part 0 true (c :: rest) = .ok (0, c :: rest, true) := by
      simp [rn_exp_part, he, hE]
    simp [read_number, has_option, jpo_default,
      jpo_allow_number_with_plus_sign, h1, h2, h3, rn_append_exp, rn_finish,
      show from_chars_i64 [49] = some 1 from rfl]
  have helem : read_element jpo_default (rest.length + 3) (49 :: c :: rest)
      = .ok (.integer 1, c :: rest) := by
    simp only [read_element]
    norm_num
    exact hnum
  have hexec : reader_execute jpo_default (49 :: c :: rest)
      = .ok (.integer 1, c :: rest) := by
    simp only [reader_execute, eat_utf8bom]
    norm_num
    exact helem
  simp [json_parse, hexec]

/-- C10 witness: the theorem applied at the claim's own examples,
`"1xyz"` and `"{} garbage"`. -/
theorem c10_parse_ignores_trailing_input_witness :
    json_parse [49, 120, 121, 122] = .ok (.integer 1)
    ∧ json_parse ([123, 125] ++ [32, 103, 97, 114, 98, 97, 103, 101])
      = .ok (.object []) := by
  obtain ⟨h1, h2, _⟩ := c10_parse_ignores_trailing_input
  exact ⟨h2 120 [121, 122] (by decide) (by decide) (by decide) (by decide),
         h1 [32, 103, 97, 114, 98, 97, 103, 101]⟩

/-! ## C4: the writer fails exactly on `undefined` and NaN -/

/-- Whether the writer produced output (no exception). -/
def is_ok : Except NanoErr (List Nat) → Bool
  | .ok _ => true
  | .error _ => false

/-- The result is a success or the `bad_value` error (never `bad_format`
or `bad_access`). -/
def ok_or_bad_value : Except NanoErr (List Nat) → Bool
  | .ok _ => true
  | .error .bad_value => true
  | .error _ => false

@[simp] theorem is_ok_ok (l : List Nat) : is_ok (.ok l) = true := rfl

@[simp] theorem is_ok_error (e : NanoErr) : is_ok (.error e) = false := rfl

@[simp] theorem ok_or_bad_value_ok (l : List Nat) :
    ok_or_bad_value (.ok l) = true := rfl

@[simp] theorem ok_or_bad_value_bv :
    ok_or_bad_value (.error .bad_value) = true := rfl

theorem write_floating_element_c4 (debug : Bool) (fmt : FloatFmt)
    (f : JFloat) :
    is_ok (write_floating_element debug fmt f)
        = (debug || !has_undef_or_nan (.floating f))
    ∧ ok_or_bad_value (write_floating_element debug fmt f) = true := by
  cases f with
  | finite m e =>
    simp [write_floating_element, has_undef_or_nan, is_ok, ok_or_bad_value]
  | inf negative =>
    simp [write_floating_element, has_undef_or_nan, is_ok, ok_or_bad_value]
  | nan =>
    cases debug <;>
      simp [write_floating_element, has_undef_or_nan, is_ok, ok_or_bad_value]

mutual

theorem write_element_c4 (opts : Nat) (fmt : FloatFmt) (ind : List Nat) :
    ∀ v : Json,
      is_ok (write_element opts fmt ind v)
          = (has_option opts jso_debug_dump || !has_undef_or_nan v)
      ∧ ok_or_bad_value (write_element opts fmt ind v) = true
  | .undefined => by
    cases h : has_option opts jso_debug_dump <;>
      simp [write_element, has_undef_or_nan, is_ok, ok_or_bad_value, h]
  | .null => by simp [write_element, has_undef_or_nan, is_ok, ok_or_bad_value]
  | .boolean b => by simp [write_element, has_undef_or_nan, is_ok, ok_or_bad_value]
  | .integer i => by simp [write_element, has_undef_or_nan, is_ok, ok_or_bad_value]
  | .floating f => by
    simpa [write_element, has_undef_or_nan] using
      write_floating_element_c4 (has_option opts jso_debug_dump) fmt f
  | .string s => by simp [write_element, has_undef_or_nan, is_ok, ok_or_bad_value]
  | .array xs => by
    have ih := write_array_body_c4 opts fmt (ind ++ [32, 32]) true xs
    cases xs with
    | nil => simp [write_element, has_undef_or_nan, has_undef_or_nan_list,
        ok_or_bad_value]
    | cons x rest =>
      rcases h : write_array_body opts fmt (ind ++ [32, 32]) true
          (x :: rest) with e | inner <;>
        simp_all [write_element, has_undef_or_nan, is_ok, ok_or_bad_value]
  | .object kvs => by
    have ih := write_object_body_c4 opts fmt (ind ++ [32, 32]) true kvs
    cases kvs with
    | nil => simp [write_element, has_undef_or_nan, has_undef_or_nan_kvs,
        ok_or_bad_value]
    | cons kv rest =>
      rcases h : write_object_body opts fmt (ind ++ [32, 32]) true
          (kv :: rest) with e | inner <;>
        simp_all [write_element, has_undef_or_nan, is_ok, ok_or_bad_value]
termination_by v => sizeOf v

theorem write_array_body_c4 (opts : Nat) (fmt : FloatFmt) (ind : List Nat) :
    ∀ (first : Bool) (xs : List Json),
      is_ok (write_array_body opts fmt ind first xs)
          = (has_option opts jso_debug_dump || !has_undef_or_nan_list xs)
      ∧ ok_or_bad_value (write_array_body opts fmt ind first xs) = true
  | _, [] => by
    simp [write_array_body, has_undef_or_nan_list, is_ok, ok_or_bad_value]
  | first, x :: rest => by
    have ihx := write_element_c4 opts fmt ind x
    have ihr := write_array_body_c4 opts fmt ind false rest
    rcases hx : write_element opts fmt ind x with e | w
    · simp_all [write_array_body, has_undef_or_nan_list, is_ok, ok_or_bad_value]
    · rcases hr : write_array_body opts fmt ind false rest with e | t <;>
        simp_all [write_array_body, has_undef_or_nan_list, is_ok,
          ok_or_bad_value] <;> tauto
termination_by _ xs => sizeOf xs

theorem write_object_body_c4 (opts : Nat) (fmt : FloatFmt)
    (ind : List Nat) :
    ∀ (first : Bool) (kvs : List (JsString × Json)),
      is_ok (write_object_body opts fmt ind first kvs)
          = (has_option opts jso_debug_dump || !has_undef_or_nan_kvs kvs)
      ∧ ok_or_bad_value (write_object_body opts fmt ind first kvs) = true
  | _, [] => by
    simp [write_object_body, has_undef_or_nan_kvs, is_ok, ok_or_bad_value]
  | first, (k, v) :: rest => by
    have ihv := write_element_c4 opts fmt ind v
    have ihr := write_object_body_c4 opts fmt ind false rest
    rcases hv : write_element opts fmt ind v with e | w
    · simp_all [write_object_body, has_undef_or_nan_kvs, is_ok, ok_or_bad_value]
    · rcases hr : write_object_body opts fmt ind false rest with e | t <;>
        simp_all [write_object_body, has_undef_or_nan_kvs, is_ok,
          ok_or_bad_value] <;> tauto
termination_by _ kvs => sizeOf kvs

end

/-- C4: `serialize(v, opts)` (default float format) fails if and only if
the tree contains an `undefined` node or a NaN float and the debug-dump
option bit is unset; every failure is `bad_value`; and with the
debug-dump bit set those nodes are emitted as the annotated
non-conforming placeholders of the source, with no error. -/
theorem c4_serialize_bad_value_iff :
    (∀ (opts : Nat) (v : Json),
      is_ok (json_serialize v opts)
          = (has_option opts jso_debug_dump || !has_undef_or_nan v)
      ∧ ok_or_bad_value (json_serialize v opts) = true)
    ∧ json_serialize .undefined jso_debug_dump
      = .ok (ascii "/***  UNDEFINED  ***/ undefined /* not allowed */")
    ∧ json_serialize (.floating .nan) jso_debug_dump
      = .ok (ascii "/***  FLOATING  ***/ NaN /* not allowed */") := by
  refine ⟨fun opts v => ?_, rfl, rfl⟩
  simpa [json_serialize] using write_element_c4 opts default_float_fmt [] v

/-! ## C1: the serialize/parse round trip

The development below proves that the default serialization of a
`round_trippable` tree parses back (default options) to the same tree,
and exhibits the precision-loss counterexample refuting the unrestricted
round trip. -/

mutual

/-- Reader fuel needed for one serialized tree: one unit per
`read_element` entry plus one per container-loop step. -/
def jfuel : Json → Nat
  | .array xs => 1 + jfuel_list xs
  | .object kvs => 1 + jfuel_kvs kvs
  | _ => 1

def jfuel_list : List Json → Nat
  | [] => 0
  | x :: rest => 1 + jfuel x + jfuel_list rest

def jfuel_kvs : List (JsString × Json) → Nat
  | [] => 0
  | kv :: rest => 1 + jfuel kv.2 + jfuel_kvs rest

end

theorem jfuel_pos (v : Json) : 1 ≤ jfuel v := by
  cases v <;> simp [jfuel]

/-- Byte sequences that may follow a serialized element inside a larger
serialized text: end of input, or a `,`, `]` or `\x7d` separator. -/
def sep_ok : List Nat → Bool
  | [] => true
  | c :: _ => c = 44 || c = 93 || c = 125

/-- The head byte (if any) cannot extend a number literal. -/
def num_stop : List Nat → Prop
  | [] => True
  | c :: _ => is_digit c = false ∧ c ≠ 46 ∧ c ≠ 101 ∧ c ≠ 69

/-- The head byte (if any) is not whitespace. -/
def nospace_head : List Nat → Prop
  | [] => True
  | c :: _ => is_space c = false

/-- Shape of a serialized element: nonempty, and its head byte is not
whitespace and none of `]`, `\x7d`, the BOM lead `0xEF`. -/
def head_elem_ok : List Nat → Prop
  | [] => False
  | c :: _ => is_space c = false ∧ c ≠ 93 ∧ c ≠ 125 ∧ c ≠ 239

theorem sep_ok_num_stop {l : List Nat} (h : sep_ok l = true) : num_stop l := by
  cases l with
  | nil => trivial
  | cons c t =>
    have hc : (c = 44 ∨ c = 93) ∨ c = 125 := by simpa [sep_ok] using h
    rcases hc with (h1 | h1) | h1 <;> subst h1 <;>
      exact ⟨by decide, by decide, by decide, by decide⟩

theorem eat_ws_default_id {l : List Nat} (h : nospace_head l) :
    eat_whitespaces jpo_default l = l := by
  cases l with
  | nil => rfl
  | cons c t =>
    have h2 : is_space c = false := h
    have hs : skip_spaces (c :: t) = c :: t := by
      simp [skip_spaces, List.dropWhile_cons, h2]
    show eat_ws_fuel jpo_default ((c :: t).length + 1) (c :: t) = c :: t
    simp only [List.length_cons]
    norm_num [eat_ws_fuel, hs, has_option, jpo_default, jpo_allow_comment,
      jpo_allow_utf8_bom, jpo_allow_unescaped_forward_slash]

theorem digits_val_append_digit (ds : List Nat) (c : Nat) :
    digits_val (ds ++ [c]) = digits_val ds * 10 + (c - 48) := by
  simp [digits_val, List.foldl_append]

theorem ntcf_zero (f : Nat) : nat_to_chars_fuel f 0 = [] := by
  cases f <;> rfl

/-- `nat_to_chars_fuel` on adequate fuel: correct value, digit characters,
and a nonzero leading digit. -/
theorem ntcf_spec (n : Nat) : ∀ f, n ≤ f → n ≠ 0 →
    digits_val (nat_to_chars_fuel f n) = n
    ∧ (∀ c ∈ nat_to_chars_fuel f n, 48 ≤ c ∧ c ≤ 57)
    ∧ (∃ c t, nat_to_chars_fuel f n = c :: t ∧ 49 ≤ c ∧ c ≤ 57) := by
  induction n using Nat.strong_induction_on with
  | _ n ih =>
    intro f hf hn
    cases f with
    | zero => omega
    | succ f =>
      have hnt : nat_to_chars_fuel (f + 1) n
          = nat_to_chars_fuel f (n / 10) ++ [48 + n % 10] := by
        simp [nat_to_chars_fuel, hn]
      by_cases h10 : n < 10
      · have hq : n / 10 = 0 := by omega
        have hr : n % 10 = n := by omega
        rw [hnt, hq, ntcf_zero, hr]
        refine ⟨?_, ?_, ⟨48 + n, [], rfl, by omega, by omega⟩⟩
        · simp [digits_val]
        · intro c hc
          simp at hc
          omega
      · have hq1 : n / 10 < n := by omega
        have hq0 : n / 10 ≠ 0 := by omega
        have hqf : n / 10 ≤ f := by omega
        obtain ⟨hv, hall, c, t, he, hc1, hc2⟩ := ih (n / 10) hq1 f hqf hq0
        rw [hnt]
        refine ⟨?_, ?_, ⟨c, t ++ [48 + n % 10], by rw [he]; rfl, hc1, hc2⟩⟩
        · rw [digits_val_append_digit, hv]
          omega
        · intro d hd
          rcases List.mem_append.1 hd with hd1 | hd2
          · exact hall d hd1
          · simp at hd2
            omega

theorem ntcf_len (n : Nat) : ∀ f k, n < 10 ^ k →
    (nat_to_chars_fuel f n).length ≤ k := by
  induction n using Nat.strong_induction_on with
  | _ n ih =>
    intro f k hk
    cases f with
    | zero => simp [nat_to_chars_fuel]
    | succ f =>
      by_cases hn : n = 0
      · simp [nat_to_chars_fuel, hn]
      · have hnt : nat_to_chars_fuel (f + 1) n
            = nat_to_chars_fuel f (n / 10) ++ [48 + n % 10] := by
          simp [nat_to_chars_fuel, hn]
        cases k with
        | zero =>
          have : n < 1 := by simpa using hk
          omega
        | succ k =>
          have hq1 : n / 10 < n := by omega
          have hqk : n / 10 < 10 ^ k := by
            have hp : n < 10 ^ k * 10 := by rw [← pow_succ]; exact hk
            omega
          have hlen := ih (n / 10) hq1 f k hqk
          rw [hnt]
          simp only [List.length_append, List.length_cons, List.length_nil]
          omega

theorem nat_to_chars_spec (m : Nat) :
    (∀ c ∈ nat_to_chars m, 48 ≤ c ∧ c ≤ 57)
    ∧ digits_val (nat_to_chars m) = m
    ∧ ∃ c t, nat_to_chars m = c :: t ∧ 48 ≤ c ∧ c ≤ 57 ∧ (m ≠ 0 → 49 ≤ c) := by
  by_cases hm : m = 0
  · subst hm
    refine ⟨?_, by simp [nat_to_chars, digits_val], 48, [], rfl, by omega,
      by omega, fun h => absurd rfl h⟩
    intro c hc
    simp [nat_to_chars] at hc
    omega
  · have he : nat_to_chars m = nat_to_chars_fuel m m := by
      simp [nat_to_chars, hm]
    obtain ⟨hv, hall, c, t, hct, hc1, hc2⟩ := ntcf_spec m m (le_refl m) hm
    rw [hct] at hv hall
    rw [he, hct]
    exact ⟨hall, hv, c, t, rfl, by omega, hc2, fun _ => hc1⟩

theorem nat_to_chars_len (m k : Nat) (h : m < 10 ^ k) (hk : 1 ≤ k) :
    (nat_to_chars m).length ≤ k := by
  by_cases hm : m = 0
  · subst hm
    simpa [nat_to_chars] using hk
  · rw [show nat_to_chars m = nat_to_chars_fuel m m by simp [nat_to_chars, hm]]
    exact ntcf_len m m k h

/-- The digit run of `int_digits_loop` on a buffer with enough room. -/
theorem int_digits_loop_run (ds : List Nat) : ∀ (buf rest : List Nat),
    (∀ c ∈ ds, 48 ≤ c ∧ c ≤ 57) → num_stop rest →
    buf.length + ds.length ≤ 60 →
    int_digits_loop buf 0 (ds ++ rest) = .ok (buf ++ ds, 0, rest) := by
  induction ds with
  | nil =>
    intro buf rest hds hr hlen
    cases rest with
    | nil => simp [int_digits_loop]
    | cons c t =>
      have hc : is_digit c = false := hr.1
      simp [int_digits_loop, hc]
  | cons d ds ih =>
    intro buf rest hds hr hlen
    have hd : is_digit d = true := by
      have := hds d (by simp)
      simp only [is_digit, decide_eq_true_eq, Bool.and_eq_true]
      exact ⟨by simpa using this.1, by simpa using this.2⟩
    have hblen : buf.length < 60 := by
      simp only [List.length_cons] at hlen
      omega
    have step : int_digits_loop buf 0 ((d :: ds) ++ rest)
        = int_digits_loop (buf ++ [d]) 0 (ds ++ rest) := by
      simp [int_digits_loop, hd, hblen]
    rw [step, ih (buf ++ [d]) rest (fun c hc => hds c (by simp [hc])) hr
      (by simp only [List.length_append, List.length_cons, List.length_nil]
          simp only [List.length_cons] at hlen
          omega)]
    simp

theorem rn_frac_part_stop (buf : List Nat) (e : Int) {l : List Nat}
    (h : num_stop l) : rn_frac_part buf e l = .ok (buf, e, l, true) := by
  cases l with
  | nil => rfl
  | cons c t =>
    obtain ⟨_, h46, _, _⟩ := h
    simp [rn_frac_part, h46]

theorem rn_exp_part_stop (e : Int) (it : Bool) {l : List Nat}
    (h : num_stop l) : rn_exp_part e it l = .ok (e, l, it) := by
  cases l with
  | nil => rfl
  | cons c t =>
    obtain ⟨_, _, h101, h69⟩ := h
    simp [rn_exp_part, h101, h69]

theorem rn_append_exp_zero (buf : List Nat) (it : Bool) :
    rn_append_exp buf 0 it = .ok (buf, it) := by
  simp [rn_append_exp]

theorem from_chars_i64_neg_shape (r : List Nat) :
    from_chars_i64 (45 :: r)
      = if int64_min ≤ -(digits_val r : Int) ∧ -(digits_val r : Int) ≤ int64_max
        then some (-(digits_val r : Int)) else none := by
  simp [from_chars_i64]

theorem from_chars_i64_pos_shape (c : Nat) (t : List Nat) (hc : c ≠ 45) :
    from_chars_i64 (c :: t)
      = if int64_min ≤ (digits_val (c :: t) : Int)
            ∧ (digits_val (c :: t) : Int) ≤ int64_max
        then some (digits_val (c :: t) : Int) else none := by
  simp [from_chars_i64, hc]

/-- `std::from_chars` inverts `std::to_chars` on in-range `long long`. -/
theorem from_chars_i64_int_to_chars (i : Int) (h1 : int64_min ≤ i)
    (h2 : i ≤ int64_max) : from_chars_i64 (int_to_chars i) = some i := by
  obtain ⟨hall, hval, c, t, he, hc48, hc57, hc49⟩ := nat_to_chars_spec i.natAbs
  by_cases hneg : i < 0
  · have hit : int_to_chars i = 45 :: nat_to_chars i.natAbs := by
      simp [int_to_chars, hneg]
    rw [hit, from_chars_i64_neg_shape, hval]
    have hvi : -(i.natAbs : Int) = i := by omega
    rw [hvi, if_pos ⟨h1, h2⟩]
  · have hit : int_to_chars i = nat_to_chars i.natAbs := by
      simp [int_to_chars, hneg]
    have hc45 : c ≠ 45 := by omega
    have hvi : (i.natAbs : Int) = i := by omega
    rw [hit, he, from_chars_i64_pos_shape c t hc45, ← he, hval, hvi,
      if_pos ⟨h1, h2⟩]

/-- `read_number` on a serialized in-range integer followed by a byte
that cannot extend a number literal: the exact integer comes back. -/
theorem read_number_int (i : Int) (h1 : int64_min ≤ i) (h2 : i ≤ int64_max)
    {rest : List Nat} (hs : num_stop rest) :
    read_number jpo_default (int_to_chars i ++ rest)
      = .ok (.integer i, rest) := by
  have hp19 : (10 : Nat) ^ 19 = 10000000000000000000 := by norm_num
  obtain ⟨hall, hval, c, t, he, hc48, hc57, hc49⟩ := nat_to_chars_spec i.natAbs
  have hlen19 : (nat_to_chars i.natAbs).length ≤ 19 := by
    refine nat_to_chars_len i.natAbs 19 ?_ (by omega)
    rw [hp19]
    simp only [int64_min, int64_max] at h1 h2
    omega
  have hfin : from_chars_i64 (int_to_chars i) = some i :=
    from_chars_i64_int_to_chars i h1 h2
  by_cases hz : i = 0
  · subst hz
    have hic : int_to_chars 0 = [48] := rfl
    rw [hic]
    have hi : rn_int_part [] (48 :: rest) = .ok ([48], 0, rest) := by
      simp [rn_int_part]
    have hf := rn_frac_part_stop [48] 0 hs
    have hx := rn_exp_part_stop 0 true hs
    simp [read_number, has_option, jpo_default,
      jpo_allow_number_with_plus_sign, hi, hf, hx, rn_append_exp_zero,
      rn_finish, show from_chars_i64 [48] = some 0 from rfl]
  · have hm0 : i.natAbs ≠ 0 := by omega
    have hd49 : 49 ≤ c := hc49 hm0
    have hcd : is_digit c = true := by
      simp only [is_digit, Bool.and_eq_true, decide_eq_true_eq]
      omega
    have hc48ne : c ≠ 48 := by omega
    have hlct : (c :: t).length ≤ 19 := by rw [← he]; exact hlen19
    by_cases hneg : i < 0
    · -- negative: buffer `[45]` then the digits of `|i|`
      have hit : int_to_chars i = 45 :: nat_to_chars i.natAbs := by
        simp [int_to_chars, hneg]
      have hrun : int_digits_loop [45] 0 (c :: (t ++ rest))
          = .ok (45 :: c :: t, 0, rest) := by
        have := int_digits_loop_run (c :: t) [45] rest
          (by rw [← he]; exact hall) hs
          (by simp only [List.length_cons, List.length_nil] at hlct ⊢
              omega)
        simpa using this
      have hi : rn_int_part [45] (c :: (t ++ rest))
          = .ok (45 :: c :: t, 0, rest) := by
        simp [rn_int_part, hc48ne, hcd, hrun]
      have hf := rn_frac_part_stop (45 :: c :: t) 0 hs
      have hx := rn_exp_part_stop 0 true hs
      have hfin2 : from_chars_i64 (45 :: c :: t) = some i := by
        rw [← show int_to_chars i = 45 :: c :: t by rw [hit, he]]
        exact hfin
      rw [hit, he]
      show read_number jpo_default ((45 :: c :: t) ++ rest) = _
      simp only [List.cons_append]
      norm_num [read_number, has_option, jpo_default, jpo_allow_utf8_bom,
        jpo_allow_unescaped_forward_slash, jpo_allow_number_with_plus_sign,
        hi, hf, hx, rn_append_exp_zero, rn_finish, hfin2]
    · -- positive: the digits alone
      have hit : int_to_chars i = nat_to_chars i.natAbs := by
        simp [int_to_chars, hneg]
      have hc45 : c ≠ 45 := by omega
      have hrun : int_digits_loop [] 0 (c :: (t ++ rest))
          = .ok (c :: t, 0, rest) := by
        have := int_digits_loop_run (c :: t) [] rest
          (by rw [← he]; exact hall) hs
          (by simp only [List.length_cons, List.length_nil] at hlct ⊢
              omega)
        simpa using this
      have hi : rn_int_part [] (c :: (t ++ rest))
          = .ok (c :: t, 0, rest) := by
        simp [rn_int_part, hc48ne, hcd, hrun]
      have hf := rn_frac_part_stop (c :: t) 0 hs
      have hx := rn_exp_part_stop 0 true hs
      have hfin2 : from_chars_i64 (c :: t) = some i := by
        rw [← show int_to_chars i = c :: t by rw [hit, he]]
        exact hfin
      rw [hit, he]
      show read_number jpo_default ((c :: t) ++ rest) = _
      simp only [List.cons_append]
      norm_num [read_number, has_option, jpo_default, jpo_allow_utf8_bom,
        jpo_allow_unescaped_forward_slash, jpo_allow_number_with_plus_sign,
        hc45, hi, hf, hx, rn_append_exp_zero, rn_finish, hfin2]

/-- `read_number` on the writer's infinity sentinel `±1.0e999999999`
followed by a legal separator: the exponent overflows positively, so the
buffer-signed infinity comes back. -/
theorem read_number_inf (neg : Bool) {rest : List Nat}
    (hs : sep_ok rest = true) :
    read_number jpo_default
        ((if neg then ascii "-1.0e999999999" else ascii "1.0e999999999")
          ++ rest)
      = .ok (.floating (.inf neg), rest) := by
  have hd := sep_ok_num_stop hs
  have hexploop : exp_digits_loop []
      (57 :: 57 :: 57 :: 57 :: 57 :: 57 :: 57 :: 57 :: 57 :: rest)
      = ([57, 57, 57, 57, 57, 57, 57, 57, 57], rest) := by
    cases rest with
    | nil => rfl
    | cons c t =>
      obtain ⟨hc, _, _, _⟩ := hd
      norm_num [exp_digits_loop, hc, show is_digit 57 = true from rfl]
  have hx : rn_exp_part 0 false
      (101 :: 57 :: 57 :: 57 :: 57 :: 57 :: 57 :: 57 :: 57 :: 57 :: rest)
      = .ok (999999999, rest, false) := by
    norm_num [rn_exp_part, is_digit, hexploop,
      show from_chars_int32 [57, 57, 57, 57, 57, 57, 57, 57, 57]
        = some 999999999 from by decide]
  cases neg with
  | false =>
    have hi : rn_int_part []
        (49 :: 46 :: 48 :: 101 :: 57 :: 57 :: 57 :: 57 :: 57 :: 57 :: 57
          :: 57 :: 57 :: rest)
        = .ok ([49], 0,
            46 :: 48 :: 101 :: 57 :: 57 :: 57 :: 57 :: 57 :: 57 :: 57 :: 57
              :: 57 :: rest) := by
      norm_num [rn_int_part, int_digits_loop, is_digit]
    have hf : rn_frac_part [49] 0
        (46 :: 48 :: 101 :: 57 :: 57 :: 57 :: 57 :: 57 :: 57 :: 57 :: 57
          :: 57 :: rest)
        = .ok ([49, 46, 48], 0,
            101 :: 57 :: 57 :: 57 :: 57 :: 57 :: 57 :: 57 :: 57 :: 57
              :: rest, false) := by
      norm_num [rn_frac_part, frac_digits_loop, is_digit]
    have happ : rn_append_exp [49, 46, 48] 999999999 false
        = .ok ([49, 46, 48, 101, 57, 57, 57, 57, 57, 57, 57, 57, 57],
            false) := rfl
    have hld : from_chars_ld
        [49, 46, 48, 101, 57, 57, 57, 57, 57, 57, 57, 57, 57]
        = .overflow := rfl
    have hfin : rn_finish
        [49, 46, 48, 101, 57, 57, 57, 57, 57, 57, 57, 57, 57]
        999999999 false rest
        = .ok (.floating (.inf false), rest) := by
      norm_num [rn_finish, hld]
    show read_number jpo_default
        ([49, 46, 48, 101, 57, 57, 57, 57, 57, 57, 57, 57, 57] ++ rest) = _
    simp only [List.cons_append, List.nil_append]
    norm_num [read_number, has_option, jpo_default, jpo_allow_utf8_bom,
      jpo_allow_unescaped_forward_slash, jpo_allow_number_with_plus_sign,
      hi, hf, hx, happ, hfin]
  | true =>
    have hi : rn_int_part [45]
        (49 :: 46 :: 48 :: 101 :: 57 :: 57 :: 57 :: 57 :: 57 :: 57 :: 57
          :: 57 :: 57 :: rest)
        = .ok ([45, 49], 0,
            46 :: 48 :: 101 :: 57 :: 57 :: 57 :: 57 :: 57 :: 57 :: 57 :: 57
              :: 57 :: rest) := by
      norm_num [rn_int_part, int_digits_loop, is_digit]
    have hf : rn_frac_part [45, 49] 0
        (46 :: 48 :: 101 :: 57 :: 57 :: 57 :: 57 :: 57 :: 57 :: 57 :: 57
          :: 57 :: rest)
        = .ok ([45, 49, 46, 48], 0,
            101 :: 57 :: 57 :: 57 :: 57 :: 57 :: 57 :: 57 :: 57 :: 57
              :: rest, false) := by
      norm_num [rn_frac_part, frac_digits_loop, is_digit]
    have happ : rn_append_exp [45, 49, 46, 48] 999999999 false
        = .ok ([45, 49, 46, 48, 101, 57, 57, 57, 57, 57, 57, 57, 57, 57],
            false) := rfl
    have hld : from_chars_ld
        [45, 49, 46, 48, 101, 57, 57, 57, 57, 57, 57, 57, 57, 57]
        = .overflow := rfl
    have hfin : rn_finish
        [45, 49, 46, 48, 101, 57, 57, 57, 57, 57, 57, 57, 57, 57]
        999999999 false rest
        = .ok (.floating (.inf true), rest) := by
      norm_num [rn_finish, hld]
    show read_number jpo_default
        ([45, 49, 46, 48, 101, 57, 57, 57, 57, 57, 57, 57, 57, 57] ++ rest)
        = _
    simp only [List.cons_append, List.nil_append]
    norm_num [read_number, has_option, jpo_default, jpo_allow_utf8_bom,
      jpo_allow_unescaped_forward_slash, jpo_allow_number_with_plus_sign,
      hi, hf, hx, happ, hfin]

theorem hex_val_up {x : Nat} (h : x < 16) : hex_val (hex_dig_up x) = some x := by
  interval_cases x <;> rfl

/-- Bytes the escape table passes through verbatim. -/
theorem write_char_verbatim {b : Nat} (h32 : 32 ≤ b) (h34 : b ≠ 34)
    (h47 : b ≠ 47) (h92 : b ≠ 92) (h127 : b ≠ 127) : write_char b = [b] := by
  have ht : char_table b = [] := by
    unfold char_table
    split_ifs <;> first | rfl | (exfalso; omega)
  simp [write_char, ht]

/-- Character lengths of the writer's escapes: at least one byte per
source byte. -/
theorem write_char_len (b : Nat) : 1 ≤ (write_char b).length := by
  by_cases h : char_table b = []
  · simp [write_char, h]
  · cases hc : char_table b with
    | nil => exact absurd hc h
    | cons x xs => simp [write_char, h, hc]

theorem flatMap_write_char_len (s : JsString) :
    s.length ≤ (s.flatMap write_char).length := by
  induction s with
  | nil => simp
  | cons b s ih =>
    have hb := write_char_len b
    simp only [List.flatMap_cons, List.length_append, List.length_cons]
    omega

/-- One `str_loop` step consumes the whole escape (or verbatim byte) the
writer emitted for one stored byte, and stores that byte back — for every
byte except 0x12, whose table entry is the misplaced `\f`. -/
theorem str_loop_writechar_step (b : Nat) (hb : b < 256) (h18 : b ≠ 18)
    (f : Nat) (acc : JsString) (X : List Nat) :
    str_loop jpo_default (f + 1) acc (write_char b ++ X)
      = str_loop jpo_default f (acc ++ [b]) X := by
  interval_cases b <;> first | rfl | (exact absurd rfl h18)

theorem str_loop_close (f : Nat) (acc : JsString) (M : List Nat) :
    str_loop jpo_default (f + 1) acc (34 :: M) = .ok (acc, M) := rfl

/-- The string-body loop inverts the writer's escaping on invertible
strings. -/
theorem str_loop_rt (s : JsString) : ∀ (fuel : Nat) (acc : JsString)
    (rest : List Nat), s.length < fuel → str_ok s = true →
    str_loop jpo_default fuel acc (s.flatMap write_char ++ (34 :: rest))
      = .ok (acc ++ s, rest) := by
  induction s with
  | nil =>
    intro fuel acc rest hf h
    cases fuel with
    | zero => omega
    | succ f => simp [str_loop_close]
  | cons b s ih =>
    intro fuel acc rest hf h
    have hb : (b < 256 ∧ ¬b = 18) ∧ str_ok s = true := by
      simpa [str_ok, List.all_cons, Bool.and_eq_true, decide_eq_true_eq]
        using h
    cases fuel with
    | zero => simp at hf
    | succ f =>
      rw [show (b :: s).flatMap write_char ++ (34 :: rest)
          = write_char b ++ (s.flatMap write_char ++ (34 :: rest)) by
        simp]
      rw [str_loop_writechar_step b hb.1.1 hb.1.2 f acc _]
      rw [ih f (acc ++ [b]) rest (by simp at hf; omega) hb.2]
      simp

/-- `read_string` inverts `write_string` on invertible strings. -/
theorem read_string_rt {s : JsString} (hok : str_ok s = true)
    (rest : List Nat) :
    read_string jpo_default (write_string_bytes s ++ rest)
      = .ok (.string s, rest) := by
  have he : write_string_bytes s ++ rest
      = 34 :: (s.flatMap write_char ++ (34 :: rest)) := by
    simp [write_string_bytes]
  rw [he]
  have hsl := str_loop_rt s
    ((s.flatMap write_char ++ (34 :: rest)).length + 1) [] rest
    (by simp only [List.length_append, List.length_cons]
        have := flatMap_write_char_len s
        omega)
    hok
  show (match str_loop jpo_default
      ((s.flatMap write_char ++ (34 :: rest)).length + 1) []
      (s.flatMap write_char ++ (34 :: rest)) with
    | .ok (s2, r) => Except.ok (Json.string s2, r)
    | .error e => Except.error e) = .ok (.string s, rest)
  rw [hsl]
  simp

theorem nospace_cons {c : Nat} (h : is_space c = false) (r : List Nat) :
    nospace_head (c :: r) := h

theorem head_elem_ok_shape {w : List Nat} (h : head_elem_ok w) :
    ∃ c t, w = c :: t ∧ is_space c = false ∧ c ≠ 93 ∧ c ≠ 125 ∧ c ≠ 239 := by
  cases w with
  | nil => exact h.elim
  | cons c t => exact ⟨c, t, rfl, h.1, h.2.1, h.2.2.1, h.2.2.2⟩

theorem head_elem_ok_append {w : List Nat} (h : head_elem_ok w)
    (u : List Nat) : head_elem_ok (w ++ u) := by
  obtain ⟨c, t, he, h1, h2, h3, h4⟩ := head_elem_ok_shape h
  subst he
  exact ⟨h1, h2, h3, h4⟩

theorem lm_contains_cons_false {k k2 : JsString} {v : Json}
    {m : List (JsString × Json)}
    (h : lm_contains ((k, v) :: m) k2 = false) :
    lm_contains m k2 = false := by
  by_cases hk : k = k2 <;> simp_all [lm_contains]

theorem lm_contains_append {m1 m2 : List (JsString × Json)} {k : JsString} :
    lm_contains (m1 ++ m2) k = (lm_contains m1 k || lm_contains m2 k) := by
  induction m1 with
  | nil => simp [lm_contains]
  | cons kv r ih =>
    obtain ⟨k0, v0⟩ := kv
    by_cases hk : k0 = k <;> simp [lm_contains, hk, ih]

/-! Single steps of `read_element` on each kind of serialized head, under
the default parse options. -/

theorem read_element_null_step (g : Nat) (rest : List Nat) :
    read_element jpo_default (g + 1) ([110, 117, 108, 108] ++ rest)
      = .ok (.null, rest) := rfl

theorem read_element_true_step (g : Nat) (rest : List Nat) :
    read_element jpo_default (g + 1) ([116, 114, 117, 101] ++ rest)
      = .ok (.boolean true, rest) := rfl

theorem read_element_false_step (g : Nat) (rest : List Nat) :
    read_element jpo_default (g + 1) ([102, 97, 108, 115, 101] ++ rest)
      = .ok (.boolean false, rest) := rfl

theorem read_element_empty_array_step (g : Nat) (rest : List Nat) :
    read_element jpo_default (g + 1) ([91, 93] ++ rest)
      = .ok (.array [], rest) := rfl

theorem read_element_empty_object_step (g : Nat) (rest : List Nat) :
    read_element jpo_default (g + 1) ([123, 125] ++ rest)
      = .ok (.object [], rest) := rfl

theorem read_element_number_dispatch (g : Nat) {c : Nat}
    (hd : c = 45 ∨ is_digit c = true) (t : List Nat) :
    read_element jpo_default (g + 1) (c :: t)
      = read_number jpo_default (c :: t) := by
  have hc : c = 45 ∨ (48 ≤ c ∧ c ≤ 57) := by
    rcases hd with h | h
    · exact Or.inl h
    · right
      simpa [is_digit, Bool.and_eq_true, decide_eq_true_eq] using h
  have h110 : c ≠ 110 := by omega
  have h116 : c ≠ 116 := by omega
  have h102 : c ≠ 102 := by omega
  have hdisp : c = 43 ∨ c = 45 ∨ is_digit c = true := by
    rcases hd with h | h
    · exact Or.inr (Or.inl h)
    · exact Or.inr (Or.inr h)
  simp [read_element, h110, h116, h102, hdisp]

theorem read_element_string_dispatch (g : Nat) (t : List Nat) :
    read_element jpo_default (g + 1) (34 :: t)
      = read_string jpo_default (34 :: t) := rfl

theorem read_element_array_step (g : Nat) (c2 : Nat) (r2 : List Nat)
    (hns : is_space c2 = false) (h93 : c2 ≠ 93) :
    read_element jpo_default (g + 1) (91 :: c2 :: r2)
      = read_array_items jpo_default g [] (c2 :: r2) := by
  have hws : eat_whitespaces jpo_default (c2 :: r2) = c2 :: r2 :=
    eat_ws_default_id (nospace_cons hns r2)
  simp [read_element, hws, h93, show is_digit 91 = false from rfl]

theorem read_element_object_step (g : Nat) (c2 : Nat) (r2 : List Nat)
    (hns : is_space c2 = false) (h125 : c2 ≠ 125) :
    read_element jpo_default (g + 1) (123 :: c2 :: r2)
      = read_object_items jpo_default g [] (c2 :: r2) := by
  have hws : eat_whitespaces jpo_default (c2 :: r2) = c2 :: r2 :=
    eat_ws_default_id (nospace_cons hns r2)
  simp [read_element, hws, h125, show is_digit 123 = false from rfl]

/-! The writer's body loops at the default (compact) options: a non-first
element is its first-element bytes behind a comma. -/

theorem wab_false_eq (fmt : FloatFmt) (ind : List Nat) (y : Json)
    (ys : List Json) :
    write_array_body 0 fmt ind false (y :: ys)
      = (write_array_body 0 fmt ind true (y :: ys)).map
          (fun t => 44 :: t) := by
  simp only [write_array_body]
  cases write_element 0 fmt ind y with
  | error e => rfl
  | ok w =>
    cases write_array_body 0 fmt ind false ys with
    | error e => rfl
    | ok t => norm_num [has_option, jso_pretty, Except.map]

theorem wob_false_eq (fmt : FloatFmt) (ind : List Nat) (k : JsString)
    (v : Json) (kvs : List (JsString × Json)) :
    write_object_body 0 fmt ind false ((k, v) :: kvs)
      = (write_object_body 0 fmt ind true ((k, v) :: kvs)).map
          (fun t => 44 :: t) := by
  simp only [write_object_body]
  cases write_element 0 fmt ind v with
  | error e => rfl
  | ok w =>
    cases write_object_body 0 fmt ind false kvs with
    | error e => rfl
    | ok t => norm_num [has_option, jso_pretty, Except.map]

/-! Steps of the array and object element loops on serialized input. -/

theorem read_array_items_last (g : Nat) (acc : List Json) (x : Json)
    (wx rest : List Nat)
    (hel : read_element jpo_default g (wx ++ (93 :: rest))
      = .ok (x, 93 :: rest)) :
    read_array_items jpo_default (g + 1) acc (wx ++ (93 :: rest))
      = .ok (.array (acc ++ [x]), rest) := by
  simp only [read_array_items]
  rw [hel]
  have hws : eat_whitespaces jpo_default (93 :: rest) = 93 :: rest :=
    eat_ws_default_id (nospace_cons (by decide) _)
  norm_num [hws]

theorem read_array_items_step (g : Nat) (acc : List Json) (x : Json)
    (wx w2 rest : List Nat) (hhead2 : head_elem_ok w2)
    (hel : read_element jpo_default g (wx ++ (44 :: (w2 ++ (93 :: rest))))
      = .ok (x, 44 :: (w2 ++ (93 :: rest)))) :
    read_array_items jpo_default (g + 1) acc
        (wx ++ (44 :: (w2 ++ (93 :: rest))))
      = read_array_items jpo_default g (acc ++ [x])
          (w2 ++ (93 :: rest)) := by
  simp only [read_array_items]
  rw [hel]
  obtain ⟨c2, t2, he2, hns2, h93, _, _⟩ := head_elem_ok_shape hhead2
  have hws1 : eat_whitespaces jpo_default (44 :: (w2 ++ (93 :: rest)))
      = 44 :: (w2 ++ (93 :: rest)) :=
    eat_ws_default_id (nospace_cons (by decide) _)
  have hws2 : eat_whitespaces jpo_default (w2 ++ (93 :: rest))
      = w2 ++ (93 :: rest) := by
    rw [he2]
    exact eat_ws_default_id (nospace_cons hns2 _)
  norm_num [hws1, hws2]
  rw [he2]
  simp only [List.cons_append]
  norm_num [h93]

theorem read_object_items_last (g : Nat) (acc : List (JsString × Json))
    (k : JsString) (v : Json) (wv rest : List Nat)
    (hkok : str_ok k = true) (hheadv : head_elem_ok wv)
    (hel : read_element jpo_default g (wv ++ (125 :: rest))
      = .ok (v, 125 :: rest)) :
    read_object_items jpo_default (g + 1) acc
        ((write_string_bytes k ++ (58 :: wv)) ++ (125 :: rest))
      = .ok (.object (lm_insert_or_assign acc k v), rest) := by
  have hshape : (write_string_bytes k ++ (58 :: wv)) ++ (125 :: rest)
      = 34 :: (k.flatMap write_char
          ++ (34 :: (58 :: (wv ++ (125 :: rest))))) := by
    simp [write_string_bytes]
  rw [hshape]
  have hkey := str_loop_rt k
    ((k.flatMap write_char
        ++ (34 :: (58 :: (wv ++ (125 :: rest))))).length + 1)
    [] (58 :: (wv ++ (125 :: rest)))
    (by simp only [List.length_append, List.length_cons]
        have := flatMap_write_char_len k
        omega) hkok
  have hws1 : eat_whitespaces jpo_default (58 :: (wv ++ (125 :: rest)))
      = 58 :: (wv ++ (125 :: rest)) :=
    eat_ws_default_id (nospace_cons (by decide) _)
  obtain ⟨cv, tv, hev, hnsv, _, _, _⟩ := head_elem_ok_shape hheadv
  have hws2 : eat_whitespaces jpo_default (wv ++ (125 :: rest))
      = wv ++ (125 :: rest) := by
    rw [hev]
    exact eat_ws_default_id (nospace_cons hnsv _)
  have hwsX : eat_whitespaces jpo_default (125 :: rest) = 125 :: rest :=
    eat_ws_default_id (nospace_cons (by decide) _)
  simp only [read_object_items]
  rw [hkey]
  norm_num [hws1, hws2, hel, hwsX]

theorem read_object_items_step (g : Nat) (acc : List (JsString × Json))
    (k : JsString) (v : Json) (wv w2 rest : List Nat)
    (hkok : str_ok k = true) (hheadv : head_elem_ok wv)
    (hq : ∃ t2, w2 = 34 :: t2)
    (hel : read_element jpo_default g
        (wv ++ (44 :: (w2 ++ (125 :: rest))))
      = .ok (v, 44 :: (w2 ++ (125 :: rest)))) :
    read_object_items jpo_default (g + 1) acc
        ((write_string_bytes k ++ (58 :: wv))
          ++ (44 :: (w2 ++ (125 :: rest))))
      = read_object_items jpo_default g (lm_insert_or_assign acc k v)
          (w2 ++ (125 :: rest)) := by
  obtain ⟨t2, hq2⟩ := hq
  have hshape : (write_string_bytes k ++ (58 :: wv))
        ++ (44 :: (w2 ++ (125 :: rest)))
      = 34 :: (k.flatMap write_char
          ++ (34 :: (58 :: (wv ++ (44 :: (w2 ++ (125 :: rest))))))) := by
    simp [write_string_bytes]
  rw [hshape]
  have hkey := str_loop_rt k
    ((k.flatMap write_char
        ++ (34 :: (58 :: (wv ++ (44 :: (w2 ++ (125 :: rest))))))).length + 1)
    [] (58 :: (wv ++ (44 :: (w2 ++ (125 :: rest)))))
    (by simp only [List.length_append, List.length_cons]
        have := flatMap_write_char_len k
        omega) hkok
  have hws1 : eat_whitespaces jpo_default
        (58 :: (wv ++ (44 :: (w2 ++ (125 :: rest)))))
      = 58 :: (wv ++ (44 :: (w2 ++ (125 :: rest)))) :=
    eat_ws_default_id (nospace_cons (by decide) _)
  obtain ⟨cv, tv, hev, hnsv, _, _, _⟩ := head_elem_ok_shape hheadv
  have hws2 : eat_whitespaces jpo_default
        (wv ++ (44 :: (w2 ++ (125 :: rest))))
      = wv ++ (44 :: (w2 ++ (125 :: rest))) := by
    rw [hev]
    exact eat_ws_default_id (nospace_cons hnsv _)
  have hwsX : eat_whitespaces jpo_default (44 :: (w2 ++ (125 :: rest)))
      = 44 :: (w2 ++ (125 :: rest)) :=
    eat_ws_default_id (nospace_cons (by decide) _)
  have hws4 : eat_whitespaces jpo_default (w2 ++ (125 :: rest))
      = w2 ++ (125 :: rest) := by
    rw [hq2]
    exact eat_ws_default_id (nospace_cons (by decide) _)
  simp only [read_object_items]
  rw [hkey]
  norm_num [hws1, hws2, hel, hwsX, hws4]
  rw [hq2]
  simp only [List.cons_append]
  norm_num

mutual

/-- Round trip of one element: the writer's bytes of a `round_trippable`
tree (compact options, default float format) have an element head, need
no more reader fuel than their length, and parse back (default options)
to the same tree, leaving exactly the trailing input. -/
theorem rt_elem : ∀ v : Json, round_trippable v = true →
    ∃ w, (∀ ind, write_element 0 default_float_fmt ind v = .ok w)
      ∧ head_elem_ok w
      ∧ jfuel v ≤ w.length
      ∧ (∀ (rest : List Nat) (fuel : Nat), sep_ok rest = true →
          jfuel v ≤ fuel →
          read_element jpo_default fuel (w ++ rest) = .ok (v, rest))
  | .undefined => by
    intro h
    simp [round_trippable] at h
  | .null => by
    intro h
    refine ⟨[110, 117, 108, 108], fun ind => rfl,
      ⟨by decide, by decide, by decide, by decide⟩, by decide, ?_⟩
    intro rest fuel hs hf
    have h1 : (1 : Nat) ≤ fuel := hf
    cases fuel with
    | zero => omega
    | succ g => exact read_element_null_step g rest
  | .boolean b => by
    intro h
    cases b with
    | true =>
      refine ⟨[116, 114, 117, 101], fun ind => rfl,
        ⟨by decide, by decide, by decide, by decide⟩, by decide, ?_⟩
      intro rest fuel hs hf
      have h1 : (1 : Nat) ≤ fuel := hf
      cases fuel with
      | zero => omega
      | succ g => exact read_element_true_step g rest
    | false =>
      refine ⟨[102, 97, 108, 115, 101], fun ind => rfl,
        ⟨by decide, by decide, by decide, by decide⟩, by decide, ?_⟩
      intro rest fuel hs hf
      have h1 : (1 : Nat) ≤ fuel := hf
      cases fuel with
      | zero => omega
      | succ g => exact read_element_false_step g rest
  | .integer i => by
    intro h
    have hi : int64_min ≤ i ∧ i ≤ int64_max := by
      simpa [round_trippable] using h
    have hshape : ∃ c0 t0, int_to_chars i = c0 :: t0
        ∧ (c0 = 45 ∨ is_digit c0 = true) := by
      obtain ⟨hall, hval, c, t, he, hc48, hc57, hc49⟩ :=
        nat_to_chars_spec i.natAbs
      by_cases hneg : i < 0
      · exact ⟨45, nat_to_chars i.natAbs, by simp [int_to_chars, hneg],
          Or.inl rfl⟩
      · refine ⟨c, t, by simp [int_to_chars, hneg, he], Or.inr ?_⟩
        simp only [is_digit, Bool.and_eq_true, decide_eq_true_eq]
        omega
    obtain ⟨c0, t0, he0, hd0⟩ := hshape
    have hc0 : c0 = 45 ∨ (48 ≤ c0 ∧ c0 ≤ 57) := by
      rcases hd0 with h1 | h1
      · exact Or.inl h1
      · right
        simpa [is_digit, Bool.and_eq_true, decide_eq_true_eq] using h1
    refine ⟨int_to_chars i,
      fun ind => by norm_num [write_element, has_option, jso_debug_dump],
      ?_, ?_, ?_⟩
    · rw [he0]
      refine ⟨?_, by omega, by omega, by omega⟩
      simp [is_space]
      omega
    · rw [he0]
      show (1 : Nat) ≤ (c0 :: t0).length
      simp
    · intro rest fuel hs hf
      have h1 : (1 : Nat) ≤ fuel := hf
      cases fuel with
      | zero => omega
      | succ g =>
        rw [he0]
        show read_element jpo_default (g + 1) (c0 :: (t0 ++ rest)) = _
        rw [read_element_number_dispatch g hd0 _]
        show read_number jpo_default ((c0 :: t0) ++ rest) = _
        rw [← he0]
        exact read_number_int i hi.1 hi.2 (sep_ok_num_stop hs)
  | .floating f => by
    intro h
    cases f with
    | finite m e => simp [round_trippable] at h
    | nan => simp [round_trippable] at h
    | inf neg =>
      refine ⟨(if neg then ascii "-1.0e999999999"
               else ascii "1.0e999999999"),
        fun ind => ?_, ?_, ?_, ?_⟩
      · cases neg <;> rfl
      · cases neg <;> exact ⟨by decide, by decide, by decide, by decide⟩
      · cases neg <;> decide
      · intro rest fuel hs hf
        have h1 : (1 : Nat) ≤ fuel := hf
        cases fuel with
        | zero => omega
        | succ g =>
          cases neg with
          | false =>
            show read_element jpo_default (g + 1)
              (49 :: ([46, 48, 101, 57, 57, 57, 57, 57, 57, 57, 57, 57]
                ++ rest)) = .ok (.floating (.inf false), rest)
            rw [read_element_number_dispatch g (Or.inr (by decide)) _]
            exact read_number_inf false hs
          | true =>
            show read_element jpo_default (g + 1)
              (45 :: ([49, 46, 48, 101, 57, 57, 57, 57, 57, 57, 57, 57, 57]
                ++ rest)) = .ok (.floating (.inf true), rest)
            rw [read_element_number_dispatch g (Or.inl rfl) _]
            exact read_number_inf true hs
  | .string s => by
    intro h
    have hok : str_ok s = true := by simpa [round_trippable] using h
    refine ⟨write_string_bytes s,
      fun ind => by norm_num [write_element, has_option, jso_debug_dump],
      ?_, ?_, ?_⟩
    · rw [show write_string_bytes s
          = 34 :: (s.flatMap write_char ++ [34]) from rfl]
      exact ⟨by decide, by decide, by decide, by decide⟩
    · show (1 : Nat) ≤ (write_string_bytes s).length
      simp [write_string_bytes]
    · intro rest fuel hs hf
      have h1 : (1 : Nat) ≤ fuel := hf
      cases fuel with
      | zero => omega
      | succ g =>
        have hshape : write_string_bytes s ++ rest
            = 34 :: (s.flatMap write_char ++ (34 :: rest)) := by
          simp [write_string_bytes]
        rw [hshape, read_element_string_dispatch g _, ← hshape]
        exact read_string_rt hok rest
  | .array xs => by
    intro h
    cases xs with
    | nil =>
      refine ⟨[91, 93], fun ind => rfl,
        ⟨by decide, by decide, by decide, by decide⟩, by decide, ?_⟩
      intro rest fuel hs hf
      have h1 : (1 : Nat) ≤ fuel := hf
      cases fuel with
      | zero => omega
      | succ g => exact read_element_empty_array_step g rest
    | cons x xs =>
      have hlst : round_trippable_list (x :: xs) = true := by
        simpa [round_trippable] using h
      obtain ⟨w, hw, hhead, hlen, hparse⟩ := rt_arr x xs hlst
      refine ⟨91 :: (w ++ [93]), fun ind => ?_,
        ⟨by decide, by decide, by decide, by decide⟩, ?_, ?_⟩
      · have hb := hw (ind ++ [32, 32])
        norm_num [write_element, has_option, jso_debug_dump, jso_pretty, hb]
      · show 1 + jfuel_list (x :: xs) ≤ (91 :: (w ++ [93])).length
        simp only [List.length_cons, List.length_append]
        omega
      · intro rest fuel hs hf
        have h2 : 1 + jfuel_list (x :: xs) ≤ fuel := hf
        cases fuel with
        | zero => omega
        | succ g =>
          have hg : jfuel_list (x :: xs) ≤ g := by omega
          obtain ⟨cw, tw, hew, hnsw, h93w, _, _⟩ := head_elem_ok_shape hhead
          have harr := hparse [] rest g hg
          show read_element jpo_default (g + 1)
            ((91 :: (w ++ [93])) ++ rest) = .ok (.array (x :: xs), rest)
          rw [show (91 :: (w ++ [93])) ++ rest
              = 91 :: (w ++ (93 :: rest)) by simp]
          rw [hew]
          simp only [List.cons_append]
          rw [read_element_array_step g cw _ hnsw h93w]
          rw [show cw :: (tw ++ (93 :: rest))
              = (cw :: tw) ++ (93 :: rest) from rfl, ← hew]
          simpa using harr
  | .object kvs => by
    intro h
    cases kvs with
    | nil =>
      refine ⟨[123, 125], fun ind => rfl,
        ⟨by decide, by decide, by decide, by decide⟩, by decide, ?_⟩
      intro rest fuel hs hf
      have h1 : (1 : Nat) ≤ fuel := hf
      cases fuel with
      | zero => omega
      | succ g => exact read_element_empty_object_step g rest
    | cons p ps =>
      obtain ⟨k, v⟩ := p
      have hkvs : round_trippable_kvs ((k, v) :: ps) = true := by
        simpa [round_trippable] using h
      obtain ⟨w, hw, hq, hlen, hparse⟩ := rt_obj k v ps hkvs
      refine ⟨123 :: (w ++ [125]), fun ind => ?_,
        ⟨by decide, by decide, by decide, by decide⟩, ?_, ?_⟩
      · have hb := hw (ind ++ [32, 32])
        norm_num [write_element, has_option, jso_debug_dump, jso_pretty, hb]
      · show 1 + jfuel_kvs ((k, v) :: ps) ≤ (123 :: (w ++ [125])).length
        simp only [List.length_cons, List.length_append]
        omega
      · intro rest fuel hs hf
        have h2 : 1 + jfuel_kvs ((k, v) :: ps) ≤ fuel := hf
        cases fuel with
        | zero => omega
        | succ g =>
          have hg : jfuel_kvs ((k, v) :: ps) ≤ g := by omega
          obtain ⟨tw, hew⟩ := hq
          have hobj := hparse [] rest g hg
            (by intro k2 hk2; simp [lm_contains] at hk2)
          show read_element jpo_default (g + 1)
            ((123 :: (w ++ [125])) ++ rest)
            = .ok (.object ((k, v) :: ps), rest)
          rw [show (123 :: (w ++ [125])) ++ rest
              = 123 :: (w ++ (125 :: rest)) by simp]
          rw [hew]
          simp only [List.cons_append]
          rw [read_element_object_step g 34 _ (by decide) (by decide)]
          rw [show (34 : Nat) :: (tw ++ (125 :: rest))
              = (34 :: tw) ++ (125 :: rest) from rfl, ← hew]
          simpa using hobj
termination_by v => sizeOf v

/-- Round trip of a nonempty array body. -/
theorem rt_arr : ∀ (x : Json) (xs : List Json),
    round_trippable_list (x :: xs) = true →
    ∃ w, (∀ ind,
        write_array_body 0 default_float_fmt ind true (x :: xs) = .ok w)
      ∧ head_elem_ok w
      ∧ jfuel_list (x :: xs) ≤ w.length + 1
      ∧ (∀ (acc : List Json) (rest : List Nat) (fuel : Nat),
          jfuel_list (x :: xs) ≤ fuel →
          read_array_items jpo_default fuel acc (w ++ (93 :: rest))
            = .ok (.array (acc ++ (x :: xs)), rest))
  | x, [] => by
    intro hrt
    have hx : round_trippable x = true := by
      simpa [round_trippable_list] using hrt
    obtain ⟨wx, hwx, hheadx, hlenx, hparsex⟩ := rt_elem x hx
    refine ⟨wx, ?_, hheadx, ?_, ?_⟩
    · intro ind
      norm_num [write_array_body, hwx ind, has_option, jso_pretty]
    · show 1 + jfuel x + 0 ≤ wx.length + 1
      omega
    · intro acc rest fuel hf
      have h2 : 1 + jfuel x + 0 ≤ fuel := hf
      cases fuel with
      | zero => omega
      | succ g =>
        have hel := hparsex (93 :: rest) g rfl (by omega)
        exact read_array_items_last g acc x wx rest hel
  | x, y :: ys => by
    intro hrt
    have hx : round_trippable x = true := by
      simp only [round_trippable_list, Bool.and_eq_true] at hrt
      exact hrt.1
    have hrest : round_trippable_list (y :: ys) = true := by
      simp only [round_trippable_list, Bool.and_eq_true] at hrt ⊢
      exact hrt.2
    obtain ⟨wx, hwx, hheadx, hlenx, hparsex⟩ := rt_elem x hx
    obtain ⟨wr, hwr, hheadr, hlenr, hparser⟩ := rt_arr y ys hrest
    refine ⟨wx ++ (44 :: wr), ?_, head_elem_ok_append hheadx _, ?_, ?_⟩
    · intro ind
      have hfalse : write_array_body 0 default_float_fmt ind false (y :: ys)
          = .ok (44 :: wr) := by
        rw [wab_false_eq, hwr ind]
        rfl
      rw [write_array_body.eq_def]
      simp only [hwx ind, hfalse]
      norm_num [has_option, jso_pretty]
    · show 1 + jfuel x + jfuel_list (y :: ys)
        ≤ (wx ++ (44 :: wr)).length + 1
      simp only [List.length_append, List.length_cons]
      omega
    · intro acc rest fuel hf
      have h2 : 1 + jfuel x + jfuel_list (y :: ys) ≤ fuel := hf
      cases fuel with
      | zero => omega
      | succ g =>
        have hgx : jfuel x ≤ g := by omega
        have hgr : jfuel_list (y :: ys) ≤ g := by omega
        have hel := hparsex (44 :: (wr ++ (93 :: rest))) g rfl hgx
        have hrec := hparser (acc ++ [x]) rest g hgr
        show read_array_items jpo_default (g + 1) acc
          ((wx ++ (44 :: wr)) ++ (93 :: rest))
          = .ok (.array (acc ++ (x :: y :: ys)), rest)
        rw [show (wx ++ (44 :: wr)) ++ (93 :: rest)
            = wx ++ (44 :: (wr ++ (93 :: rest))) by simp]
        rw [read_array_items_step g acc x wx wr rest hheadr hel]
        rw [hrec]
        simp
termination_by x xs => sizeOf (x :: xs)

/-- Round trip of a nonempty object body: the pairs come back appended to
the accumulator, in order, provided no accumulator key recurs. -/
theorem rt_obj : ∀ (k : JsString) (v : Json)
    (kvs : List (JsString × Json)),
    round_trippable_kvs ((k, v) :: kvs) = true →
    ∃ w, (∀ ind,
        write_object_body 0 default_float_fmt ind true ((k, v) :: kvs)
          = .ok w)
      ∧ (∃ t2, w = 34 :: t2)
      ∧ jfuel_kvs ((k, v) :: kvs) ≤ w.length + 1
      ∧ (∀ (acc : List (JsString × Json)) (rest : List Nat) (fuel : Nat),
          jfuel_kvs ((k, v) :: kvs) ≤ fuel →
          (∀ k2, lm_contains acc k2 = true
            → lm_contains ((k, v) :: kvs) k2 = false) →
          read_object_items jpo_default fuel acc (w ++ (125 :: rest))
            = .ok (.object (acc ++ ((k, v) :: kvs)), rest))
  | k, v, [] => by
    intro hrt
    simp only [round_trippable_kvs, Bool.and_eq_true] at hrt
    obtain ⟨⟨⟨hk, hnc⟩, hv⟩, _⟩ := hrt
    obtain ⟨wv, hwv, hheadv, hlenv, hparsev⟩ := rt_elem v hv
    refine ⟨write_string_bytes k ++ (58 :: wv), ?_,
      ⟨(k.flatMap write_char ++ [34]) ++ (58 :: wv),
        by simp [write_string_bytes]⟩, ?_, ?_⟩
    · intro ind
      norm_num [write_object_body, hwv ind, has_option, jso_pretty]
    · show 1 + jfuel v + 0
        ≤ (write_string_bytes k ++ (58 :: wv)).length + 1
      simp only [write_string_bytes, List.length_append, List.length_cons]
      omega
    · intro acc rest fuel hf hfresh
      have h2 : 1 + jfuel v + 0 ≤ fuel := hf
      cases fuel with
      | zero => omega
      | succ g =>
        have hel := hparsev (125 :: rest) g rfl (by omega)
        have hself : lm_contains ((k, v)
            :: ([] : List (JsString × Json))) k = true := by
          simp [lm_contains]
        have hkfresh : lm_contains acc k = false := by
          cases hacc : lm_contains acc k with
          | false => rfl
          | true => simp [hfresh k hacc] at hself
        rw [read_object_items_last g acc k v wv rest hk hheadv hel]
        rw [lm_insert_or_assign_absent v hkfresh]
  | k, v, (k2, v2) :: ps => by
    intro hrt
    have hk : str_ok k = true := by
      simp only [round_trippable_kvs, Bool.and_eq_true] at hrt
      exact hrt.1.1.1
    have hncb : (!lm_contains ((k2, v2) :: ps) k) = true := by
      simp only [round_trippable_kvs, Bool.and_eq_true] at hrt
      exact hrt.1.1.2
    have hnc : lm_contains ((k2, v2) :: ps) k = false := by
      revert hncb
      cases lm_contains ((k2, v2) :: ps) k <;> simp
    have hv : round_trippable v = true := by
      simp only [round_trippable_kvs, Bool.and_eq_true] at hrt
      exact hrt.1.2
    have hrest : round_trippable_kvs ((k2, v2) :: ps) = true := by
      simp only [round_trippable_kvs, Bool.and_eq_true] at hrt ⊢
      exact hrt.2
    obtain ⟨wv, hwv, hheadv, hlenv, hparsev⟩ := rt_elem v hv
    obtain ⟨wr, hwr, hqr, hlenr, hparser⟩ := rt_obj k2 v2 ps hrest
    refine ⟨(write_string_bytes k ++ (58 :: wv)) ++ (44 :: wr), ?_,
      ⟨((k.flatMap write_char ++ [34]) ++ (58 :: wv)) ++ (44 :: wr),
        by simp [write_string_bytes]⟩, ?_, ?_⟩
    · intro ind
      have hfalse : write_object_body 0 default_float_fmt ind false
          ((k2, v2) :: ps) = .ok (44 :: wr) := by
        rw [wob_false_eq, hwr ind]
        rfl
      rw [write_object_body.eq_def]
      simp only [hwv ind, hfalse]
      norm_num [has_option, jso_pretty]
    · show 1 + jfuel v + jfuel_kvs ((k2, v2) :: ps)
        ≤ ((write_string_bytes k ++ (58 :: wv)) ++ (44 :: wr)).length + 1
      simp only [write_string_bytes, List.length_append, List.length_cons]
      omega
    · intro acc rest fuel hf hfresh
      have h2 : 1 + jfuel v + jfuel_kvs ((k2, v2) :: ps) ≤ fuel := hf
      cases fuel with
      | zero => omega
      | succ g =>
        have hgv : jfuel v ≤ g := by omega
        have hgr : jfuel_kvs ((k2, v2) :: ps) ≤ g := by omega
        have hel := hparsev (44 :: (wr ++ (125 :: rest))) g rfl hgv
        have hself : lm_contains ((k, v) :: ((k2, v2) :: ps)) k
            = true := by
          simp [lm_contains]
        have hkfresh : lm_contains acc k = false := by
          cases hacc : lm_contains acc k with
          | false => rfl
          | true => simp [hfresh k hacc] at hself
        have hfresh2 : ∀ u, lm_contains (lm_insert_or_assign acc k v) u
            = true → lm_contains ((k2, v2) :: ps) u = false := by
          intro u hu
          rw [lm_insert_or_assign_absent v hkfresh,
            lm_contains_append] at hu
          rw [Bool.or_eq_true] at hu
          rcases hu with h1 | h1
          · exact lm_contains_cons_false (hfresh u h1)
          · by_cases hku : k = u
            · subst hku
              exact hnc
            · simp [lm_contains, hku] at h1
        have hrec := hparser (lm_insert_or_assign acc k v) rest g hgr
          hfresh2
        show read_object_items jpo_default (g + 1) acc
          (((write_string_bytes k ++ (58 :: wv)) ++ (44 :: wr))
            ++ (125 :: rest))
          = .ok (.object (acc ++ ((k, v) :: (k2, v2) :: ps)), rest)
        rw [show ((write_string_bytes k ++ (58 :: wv)) ++ (44 :: wr))
              ++ (125 :: rest)
            = (write_string_bytes k ++ (58 :: wv))
              ++ (44 :: (wr ++ (125 :: rest))) by simp]
        rw [read_object_items_step g acc k v wv wr rest hk hheadv hqr hel]
        rw [hrec]
        rw [lm_insert_or_assign_absent v hkfresh]
        simp
termination_by k v kvs => sizeOf ((k, v) :: kvs)

end

/-- C1, counterexample: the unrestricted round trip fails.  The tree
`123456789.0` (a finite float, no `undefined`, no NaN) serializes under
the default 7-significant-digit general format to `1.234568e+08`, which
parses back to the float `123456800` (= `3858025 * 2^5`), a different
value: full decimal precision does not survive the round trip. -/
theorem c1_counterexample_precision_loss :
    has_undef_or_nan (.floating (.finite 123456789 0)) = false
    ∧ json_serialize (.floating (.finite 123456789 0))
      = .ok [49, 46, 50, 51, 52, 53, 54, 56, 101, 43, 48, 56]
    ∧ json_parse [49, 46, 50, 51, 52, 53, 54, 56, 101, 43, 48, 56]
      = .ok (.floating (.finite 3858025 5))
    ∧ Json.floating (.finite 3858025 5)
        ≠ Json.floating (.finite 123456789 0) := by
  refine ⟨rfl, rfl, rfl, by simp⟩

/-- C1 (amended): serializing a `round_trippable` tree (no `undefined`,
64-bit integers, floats only infinities, strings and keys invertible
under the escape table, unique object keys) with the default compact
options and float format, then parsing with the default options, yields
the original tree, structurally and order-sensitively. -/
theorem c1_roundtrip_for_round_trippable_trees (v : Json)
    (h : round_trippable v = true) :
    ∃ w, json_serialize v = .ok w ∧ json_parse w = .ok v := by
  obtain ⟨w, hw, hhead, hlen, hparse⟩ := rt_elem v h
  obtain ⟨c, t, hew, hns, _, _, h239⟩ := head_elem_ok_shape hhead
  refine ⟨w, by simpa [json_serialize] using hw [], ?_⟩
  have hp := hparse [] (w.length + 1) rfl (by omega)
  have hbom : eat_utf8bom jpo_default w = .ok w := by
    rw [hew]
    simp [eat_utf8bom, h239]
  have hws : eat_whitespaces jpo_default w = w := by
    rw [hew]
    exact eat_ws_default_id (nospace_cons hns _)
  have hexec : reader_execute jpo_default w = .ok (v, []) := by
    simp only [reader_execute, hbom, hws]
    simpa using hp
  simp [json_parse, hexec]

/-- C1 witness: the amended round trip at a concrete tree exercising
null, booleans, negative integers, an escaped string, an infinity, a
nested array, and a two-key object. -/
theorem c1_roundtrip_witness :
    round_trippable (Json.object [([97],
        Json.array [Json.null, Json.boolean true, Json.integer (-12),
          Json.string [104, 10, 34], Json.floating (.inf true)]),
      ([98, 99], Json.integer 7)]) = true
    ∧ ∃ w, json_serialize (Json.object [([97],
          Json.array [Json.null, Json.boolean true, Json.integer (-12),
            Json.string [104, 10, 34], Json.floating (.inf true)]),
        ([98, 99], Json.integer 7)]) = .ok w
      ∧ json_parse w = .ok (Json.object [([97],
          Json.array [Json.null, Json.boolean true, Json.integer (-12),
            Json.string [104, 10, 34], Json.floating (.inf true)]),
        ([98, 99], Json.integer 7)]) :=
  ⟨by decide, c1_roundtrip_for_round_trippable_trees _ (by decide)⟩

end Nanojson3
